import Mathlib

/-!
Verification of the CAS client (handler.go, service_validate.go,
http_helpers.go) against its specification. The Go code is shallowly
embedded: pure computations become Lean functions, the HTTP exchange is
abstracted by passing the status code and body that the server returned,
Go panics are modelled by an Option layer, and collaborators that are not
among the given source files (the XML response and logout parsers, the
ticket store, the URL sanitiser) are either explicit function parameters
or definitions modelled from the spec, each marked as such.
-/

namespace Cas

/-- Result of a successful CAS ticket validation (the AuthenticationResponse
struct). Only the field read by the embedded code is modelled; the Go struct
carries further optional metadata fields that none of the embedded code
inspects. -/
structure AuthenticationResponse where
  User : String
deriving DecidableEq, Repr

/-- HTTP response written by a handler: status code and body text. -/
structure HttpResponse where
  status : Nat
  body : String
deriving DecidableEq, Repr

/-- Body written by the Go helper http.Error, which prints the message with
Fprintln and therefore appends a newline. -/
def httpErrorBody (msg : String) : String := msg ++ "\n"

/-- Go string slicing s[lo:hi]. Returns none exactly when Go would panic
with slice bounds out of range, that is unless 0 le lo le hi le len.
The model indexes characters where Go indexes bytes; the two agree on every
boundary used by the embedded code. -/
def goSlice (s : String) (lo hi : Int) : Option String :=
  if 0 ≤ lo ∧ lo ≤ hi ∧ hi ≤ (s.length : Int) then
    some (String.mk ((s.data.take hi.toNat).drop lo.toNat))
  else
    none

/-- Stage of validateTicketCas1 (service_validate.go lines 149 to 161) that
interprets a body received with HTTP status 200: the body no-newline-newline
means not logged in, otherwise the principal is the slice body[4:len-1].
The outer Option is none when the slice panics. -/
def cas1ParseStage (body : String) : Option (Except String (Option AuthenticationResponse)) :=
  if body = "no\n\n" then
    some (.ok none)
  else
    match goSlice body 4 ((body.length : Int) - 1) with
    | none => none
    | some u => some (.ok (some { User := u }))

/-- Model of validateTicketCas1 (service_validate.go lines 104 to 162) after
the HTTP exchange, as a function of the status code and body returned by the
CAS server. A non-200 status yields an error carrying the body; a 200 status
is handed to the v1 parse stage. The outer Option is none when Go panics. -/
def validateTicketCas1Core (statusCode : Nat) (body : String) :
    Option (Except String (Option AuthenticationResponse)) :=
  if statusCode ≠ 200 then
    some (.error ("cas: validate ticket: " ++ body))
  else
    cas1ParseStage body

/-- Stage of validateTicketCas2 (service_validate.go lines 75 to 85) that
runs on a 200 status: it delegates to ParseServiceResponse and returns its
result unchanged. That parser is not among the given source files, so it is
an explicit function parameter here. -/
def cas2ParseStage
    (parse : String → Except String (Option AuthenticationResponse))
    (body : String) : Except String (Option AuthenticationResponse) :=
  parse body

/-- Model of validateTicketCas2 (service_validate.go lines 45 to 86) after
the HTTP exchange: a status other than 200 yields an error carrying the raw
body, and a 200 status delegates to the parse stage. -/
def validateTicketCas2Core
    (parse : String → Except String (Option AuthenticationResponse))
    (statusCode : Nat) (body : String) : Except String (Option AuthenticationResponse) :=
  if statusCode ≠ 200 then
    .error ("cas: validate ticket: " ++ body)
  else
    cas2ParseStage parse body

/-- First occurrence replacement on character lists, modelling the Go call
strings.Replace(s, old, new, 1): the leftmost occurrence of old is replaced
by new, and a string without an occurrence is returned unchanged. -/
def replaceFirstChars (pat rep : List Char) : List Char → List Char
  | [] => if pat.isPrefixOf ([] : List Char) then rep ++ ([] : List Char) else []
  | c :: rest =>
    if pat.isPrefixOf (c :: rest) then rep ++ (c :: rest).drop pat.length
    else c :: replaceFirstChars pat rep rest

/-- Model of the Go call strings.Replace(s, old, new, 1). -/
def stringsReplace1 (s old new : String) : String :=
  String.mk (replaceFirstChars old.data new.data s.data)

/-- Sanitization applied by validateTicketCas3 (service_validate.go line
229): exactly the literal bracketed zone name Asia/Shanghai is removed, and
only its first occurrence. -/
def cas3Sanitize (body : String) : String :=
  stringsReplace1 body "[Asia/Shanghai]" ""

/-- Stage of validateTicketCas3 (service_validate.go lines 225 to 237) that
runs on a 200 status: the body no-newline-newline means not logged in,
otherwise the sanitized body is handed to ParseServiceResponse, an explicit
parameter since that parser is not among the given source files. -/
def cas3ParseStage
    (parse : String → Except String (Option AuthenticationResponse))
    (body : String) : Except String (Option AuthenticationResponse) :=
  if body = "no\n\n" then
    .ok none
  else
    parse (cas3Sanitize body)

/-- Model of validateTicketCas3 (service_validate.go lines 180 to 238) after
the HTTP exchange: a status other than 200 yields an error carrying the raw
body, and a 200 status delegates to the v3 parse stage. -/
def validateTicketCas3Core
    (parse : String → Except String (Option AuthenticationResponse))
    (statusCode : Nat) (body : String) : Except String (Option AuthenticationResponse) :=
  if statusCode ≠ 200 then
    .error ("cas: validate ticket: " ++ body)
  else
    cas3ParseStage parse body

/-- Inbound HTTP request as seen by the handler: method, the Content-Type
header, and the parsed form (ordered key-value pairs, as Go merges POST body
and query parameters). -/
structure SimpleRequest where
  method : String
  contentType : String
  form : List (String × String)
deriving DecidableEq, Repr

/-- Model of the Go call r.FormValue(key): the first value for the key, or
the empty string when the key is absent. -/
def formValue (r : SimpleRequest) (key : String) : String :=
  (r.form.lookup key).getD ""

/-- Model of IsSingleLogoutRequest (handler.go lines 37 to 52). -/
def IsSingleLogoutRequest (r : SimpleRequest) : Bool :=
  if r.method ≠ "POST" then false
  else if r.contentType ≠ "application/x-www-form-urlencoded" then false
  else if formValue r "logoutRequest" = "" then false
  else true

/-- Parsed form of an inbound single logout notification; the Go struct
field SessionIndex carries the CAS ticket identifier. -/
structure LogoutRequest where
  SessionIndex : String
deriving DecidableEq, Repr

/-- Session record held by the stores: the browser cookie value, the CAS
ticket that produced the session, and the principal. -/
structure StoredSession where
  cookie : String
  ticket : String
  user : String
deriving DecidableEq, Repr

/-- State of the two store indexes of a client: the cookie-keyed session
map and the ticket-keyed reverse map. -/
structure ClientStores where
  sessions : List (String × StoredSession)
  tickets : List (String × StoredSession)
deriving DecidableEq, Repr

/-- Modelled from the spec: the ticket store and its Delete method are not
among the given source files. Per section 4.3 of the spec, deleting by
ticket removes the ticket-keyed entry and the cookie-keyed entry of the
same Session atomically, and deleting a non-existent key is reported as an
error rather than being fatal. -/
def ticketsDelete (st : ClientStores) (t : String) : Except String ClientStores :=
  match st.tickets.lookup t with
  | none => .error "cas: ticket not found in ticket store"
  | some s =>
    .ok { sessions := st.sessions.filter (fun kv => kv.1 != s.cookie),
          tickets := st.tickets.filter (fun kv => kv.1 != t) }

/-- Model of performSingleLogout (handler.go lines 55 to 73): read the
logoutRequest form field, parse it (parseLogoutRequest is not among the
given source files, so it is a function parameter), delete the session
index from the ticket-keyed store, and answer 200 OK on success or 500 with
the error text on failure. The returned pair is the written response and
the store state afterwards. -/
def performSingleLogout
    (parseLogoutRequest : String → Except String LogoutRequest)
    (r : SimpleRequest) (st : ClientStores) : HttpResponse × ClientStores :=
  match parseLogoutRequest (formValue r "logoutRequest") with
  | .error e => ({ status := 500, body := httpErrorBody e }, st)
  | .ok logoutRequest =>
    match ticketsDelete st logoutRequest.SessionIndex with
    | .error e => ({ status := 500, body := httpErrorBody e }, st)
    | .ok st2 => ({ status := 200, body := "OK\n" }, st2)

/-- Client configuration object; its contents are irrelevant to the claims,
only whether a request has one bound. -/
structure Client where
  id : Nat
deriving DecidableEq, Repr

/-- Action taken by a redirect helper: either an error response written with
http.Error, or a redirect issued through the bound client. -/
inductive HttpAction where
  | errorResponse (status : Nat) (body : String)
  | clientRedirect (target : String)
deriving DecidableEq, Repr

/-- Request-scoped context of http_helpers.go: the client bound by SetClient,
if any. -/
structure ContextRequest where
  boundClient : Option Client
deriving DecidableEq, Repr

/-- Model of SetClient (http_helpers.go lines 20 to 24). -/
def SetClient (r : ContextRequest) (c : Client) : ContextRequest :=
  { r with boundClient := some c }

/-- Model of GetClient (http_helpers.go lines 41 to 47): the bound client,
or none when the request was never bound. -/
def GetClient (r : ContextRequest) : Option Client := r.boundClient

/-- Model of RedirectToLogin (http_helpers.go lines 51 to 60): without a
bound client it writes a 500 error response; otherwise it delegates to the
client, whose redirect behaviour is a function parameter since client.go is
not among the given source files. -/
def RedirectToLogin (r : ContextRequest)
    (clientRedirectToLogin : Client → HttpAction) : HttpAction :=
  match GetClient r with
  | none => .errorResponse 500
      (httpErrorBody "cas: redirect to cas failed as no client associated with request")
  | some c => clientRedirectToLogin c

/-- Model of RedirectToLogout (http_helpers.go lines 64 to 73). -/
def RedirectToLogout (r : ContextRequest)
    (clientRedirectToLogout : Client → HttpAction) : HttpAction :=
  match GetClient r with
  | none => .errorResponse 500
      (httpErrorBody "cas: redirect to cas failed as no client associated with request")
  | some c => clientRedirectToLogout c

/-- Parser stand-in that accepts every body as an unauthenticated result;
used to instantiate parser-parametric statements at a concrete input. -/
def parseAlwaysOk : String → Except String (Option AuthenticationResponse) :=
  fun _ => .ok none

/-- Parser stand-in that reports the exact body it was handed, used to
observe what the validation path passes to the parser. -/
def parseEcho : String → Except String (Option AuthenticationResponse) :=
  fun b => .error b

/-- Modelled from the spec: ParseServiceResponse is not among the given
source files. Per section 4.1 of the spec, the v2 and v3 parser extracts
the principal and treats the authentication date as optional metadata: a
date value that fails to parse leaves the field at its zero value instead
of failing the whole parse. The markup-level field extraction and the
timestamp grammar stay abstract parameters; the result pairs the principal
with the parsed date. -/
def specParseWithDate
    (extractUser : String → Except String String)
    (extractDate : String → Option String)
    (parseTime : String → Option Nat)
    (body : String) : Except String (String × Nat) :=
  match extractUser body with
  | .error e => .error e
  | .ok u =>
    match extractDate body with
    | none => .ok (u, 0)
    | some d => .ok (u, (parseTime d).getD 0)

/-- Logout parser stand-in returning a fixed session index, used to run the
single logout handler on concrete inputs. -/
def sloParseStub : String → Except String LogoutRequest :=
  fun _ => .ok { SessionIndex := "ST-1" }

/-- Concrete session used by the single logout examples. -/
def sloSession : StoredSession :=
  { cookie := "cookie-1", ticket := "ST-1", user := "alice" }

/-- Concrete single logout request used by the examples. -/
def sloRequest : SimpleRequest :=
  { method := "POST", contentType := "application/x-www-form-urlencoded",
    form := [("logoutRequest", "payload")] }

/-- Concrete store state with one session indexed under both keys. -/
def sloStores : ClientStores :=
  { sessions := [("cookie-1", sloSession)], tickets := [("ST-1", sloSession)] }

/-- Which of the three continuations of clientHandler.ServeHTTP ran. -/
structure ServeTrace where
  performedSingleLogout : Bool
  calledGetSession : Bool
  calledWrappedHandler : Bool
deriving DecidableEq, Repr

/-- Model of clientHandler.ServeHTTP (handler.go lines 20 to 32): a detected
single logout request is answered by performSingleLogout and the method
returns; every other request goes through GetSession and then the wrapped
handler. -/
def ServeHTTP (r : SimpleRequest) : ServeTrace :=
  if IsSingleLogoutRequest r then
    { performedSingleLogout := true, calledGetSession := false, calledWrappedHandler := false }
  else
    { performedSingleLogout := false, calledGetSession := true, calledWrappedHandler := true }

/-! Model of the fragment of the Go standard library packages path and
net/url exercised by the URL builders of service_validate.go. Strings are
modelled as their character lists; the Go code indexes bytes, and the two
agree on every input within the byte range the claims quantify over. -/

/-- Split of a character list at every occurrence of the separator,
modelling strings.Split; the result is never empty. -/
def splitOnChar (sep : Char) : List Char → List (List Char)
  | [] => [[]]
  | c :: rest =>
    if c = sep then [] :: splitOnChar sep rest
    else
      match splitOnChar sep rest with
      | [] => [[c]]
      | s :: ss => (c :: s) :: ss

/-- Join of segments with a separator, the inverse of splitOnChar. -/
def joinChar (sep : Char) : List (List Char) → List Char
  | [] => []
  | [s] => s
  | s :: s2 :: ss => s ++ sep :: joinChar sep (s2 :: ss)

/-- Whether a path begins with a slash. -/
def isRooted (l : List Char) : Bool :=
  match l with
  | '/' :: _ => true
  | _ => false

/-- Segment walk of the Go function path.Clean: empty and dot segments are
dropped, a dot-dot segment pops the previous segment, is dropped at the
root of a rooted path, and is kept when a relative path has nothing left to
pop. The accumulator holds the kept segments in reverse. -/
def cleanSegsAux (rooted : Bool) : List (List Char) → List (List Char) → List (List Char)
  | acc, [] => acc.reverse
  | acc, seg :: rest =>
    if seg = [] ∨ seg = ['.'] then cleanSegsAux rooted acc rest
    else if seg = ['.', '.'] then
      match acc with
      | [] =>
        if rooted then cleanSegsAux rooted [] rest
        else cleanSegsAux rooted [['.', '.']] rest
      | top :: acc2 =>
        if top = ['.', '.'] then cleanSegsAux rooted (seg :: top :: acc2) rest
        else cleanSegsAux rooted acc2 rest
    else cleanSegsAux rooted (seg :: acc) rest

/-- Model of the Go function path.Clean. -/
def pathClean (p : String) : String :=
  if p = "" then "."
  else
    let rooted := isRooted p.data
    let segs := cleanSegsAux rooted [] (splitOnChar '/' p.data)
    let out := (if rooted then ['/'] else []) ++ joinChar '/' segs
    if out = [] then "." else String.mk out

/-- Model of the Go call path.Join(a, b): empty elements are skipped and
the slash-joined rest is cleaned; the join of no elements is empty. -/
def pathJoin (a b : String) : String :=
  if a = "" ∧ b = "" then ""
  else if a = "" then pathClean b
  else if b = "" then pathClean a
  else pathClean (a ++ "/" ++ b)

/-- Characters of a list up to and including its last slash; empty when the
list has no slash. Models the Go slice base[:strings.LastIndex(base, slash)+1]. -/
def upToLastSlash (l : List Char) : List Char :=
  (l.reverse.dropWhile (fun c => c != '/')).reverse

/-- Segment walk of the Go function resolvePath inside net/url: a dot
segment is dropped, a dot-dot segment pops the previous segment (silently at
the top), every other segment, empty ones included, is kept. The
accumulator holds kept segments in reverse. -/
def resolveSegsAux : List (List Char) → List (List Char) → List (List Char)
  | acc, [] => acc.reverse
  | acc, seg :: rest =>
    if seg = ['.'] then resolveSegsAux acc rest
    else if seg = ['.', '.'] then resolveSegsAux (acc.drop 1) rest
    else resolveSegsAux (seg :: acc) rest

/-- Model of the Go function resolvePath of net/url, which resolves the
path of a reference against a base path and always produces a rooted
path. -/
def resolvePathGo (base ref : String) : String :=
  let full : List Char :=
    if ref = "" then base.data
    else if isRooted ref.data then ref.data
    else upToLastSlash base.data ++ ref.data
  if full = [] then ""
  else
    let segs0 := splitOnChar '/' full
    let segs := resolveSegsAux [] segs0
    let segs2 :=
      if segs0.getLast? = some ['.'] ∨ segs0.getLast? = some ['.', '.'] then
        segs ++ [[]]
      else segs
    let joined := joinChar '/' segs2
    let trimmed := if isRooted joined then joined.drop 1 else joined
    String.mk ('/' :: trimmed)

/-- URL as used by the embedded code: scheme, host, decoded path, raw
query. The Go struct has further fields (user, fragment, opaque) that the
embedded code never sets. -/
structure URL where
  scheme : String
  host : String
  path : String
  rawQuery : String
deriving DecidableEq, Repr

/-- Model of the Go call base.Parse(ref) for the references produced by
path.Join in this codebase: plain path strings without scheme, host, query
or fragment. Resolution keeps the scheme and host of the base, resolves the
path, and takes the query of the reference, which is empty. -/
def urlParsePathRef (base : URL) (ref : String) : URL :=
  { scheme := base.scheme, host := base.host,
    path := resolvePathGo base.path ref, rawQuery := "" }

/-- Characters the Go escaper never encodes in any mode: letters, digits,
and the four unreserved punctuation marks. -/
def isUnreservedChar (c : Char) : Bool :=
  (decide ('a' ≤ c) && decide (c ≤ 'z')) || (decide ('A' ≤ c) && decide (c ≤ 'Z')) ||
    (decide ('0' ≤ c) && decide (c ≤ '9')) ||
    c == '-' || c == '_' || c == '.' || c == '~'

/-- Characters the Go escaper leaves alone in path mode: the unreserved set
plus the sub-delimiters that are legal in a path. -/
def isPathSafeChar (c : Char) : Bool :=
  isUnreservedChar c || c == '$' || c == '&' || c == '+' || c == ',' || c == '/' ||
    c == ':' || c == ';' || c == '=' || c == '@'

/-- Upper-case hexadecimal digit of a value below sixteen. -/
def hexDigitUpper (n : Nat) : Char :=
  if n < 10 then Char.ofNat (48 + n) else Char.ofNat (55 + n)

/-- Percent-encoding of one byte, upper-case as Go emits it. -/
def percentEncodeChar (c : Char) : List Char :=
  ['%', hexDigitUpper (c.toNat / 16 % 16), hexDigitUpper (c.toNat % 16)]

/-- Escaping of one character in query-component mode: unreserved
characters pass, space becomes plus, everything else is percent-encoded. -/
def queryEscapeChar (c : Char) : List Char :=
  if isUnreservedChar c then [c]
  else if c == ' ' then ['+']
  else percentEncodeChar c

/-- Escaping of one character in path mode. -/
def pathEscapeChar (c : Char) : List Char :=
  if isPathSafeChar c then [c] else percentEncodeChar c

/-- Character-wise escaping of a list. -/
def escapeChars (esc : Char → List Char) : List Char → List Char
  | [] => []
  | c :: rest => esc c ++ escapeChars esc rest

/-- Model of the Go function url.QueryEscape. -/
def queryEscape (s : String) : String :=
  String.mk (escapeChars queryEscapeChar s.data)

/-- Model of the escaped-path computation of a Go URL. -/
def pathEscape (s : String) : String :=
  String.mk (escapeChars pathEscapeChar s.data)

/-- Model of the Go method URL.String for the URLs built here: scheme,
separator, host, escaped path, and the raw query when non-empty. -/
def urlToString (u : URL) : String :=
  u.scheme ++ "://" ++ u.host ++ pathEscape u.path ++
    (if u.rawQuery = "" then "" else "?" ++ u.rawQuery)

/-- Value of a hexadecimal digit character, in any case. -/
def hexVal (c : Char) : Option Nat :=
  if decide ('0' ≤ c) && decide (c ≤ '9') then some (c.toNat - 48)
  else if decide ('a' ≤ c) && decide (c ≤ 'f') then some (c.toNat - 87)
  else if decide ('A' ≤ c) && decide (c ≤ 'F') then some (c.toNat - 55)
  else none

/-- Model of the Go function url.QueryUnescape on character lists: percent
followed by two hexadecimal digits decodes to that byte, plus decodes to
space, a malformed percent sequence fails. -/
def queryUnescapeChars : List Char → Option (List Char)
  | [] => some []
  | c :: rest =>
    if c = '%' then
      match rest with
      | a :: b :: rest2 =>
        match hexVal a, hexVal b, queryUnescapeChars rest2 with
        | some x, some y, some r => some (Char.ofNat (16 * x + y) :: r)
        | _, _, _ => none
      | _ => none
    else if c = '+' then (queryUnescapeChars rest).map (fun r => ' ' :: r)
    else (queryUnescapeChars rest).map (fun r => c :: r)

/-- Cut of a list at the first occurrence of the separator, modelling
strings.Cut; without an occurrence the second component is empty. -/
def cutAtChar (sep : Char) : List Char → (List Char × List Char)
  | [] => ([], [])
  | c :: rest =>
    if c = sep then ([], rest)
    else
      let p := cutAtChar sep rest
      (c :: p.1, p.2)

/-- Decoding of one query segment into a key-value pair; fails when either
side fails to unescape. -/
def parsePair (seg : List Char) : Option (String × String) :=
  match queryUnescapeChars (cutAtChar '=' seg).1,
      queryUnescapeChars (cutAtChar '=' seg).2 with
  | some k, some v => some (String.mk k, String.mk v)
  | _, _ => none

/-- Model of the Go function url.ParseQuery as consulted through
URL.Query(): best effort, skipping empty segments, segments containing a
semicolon, and segments that fail to unescape. Pairs keep their order of
appearance. -/
def parseQuery (s : String) : List (String × String) :=
  (splitOnChar '&' s.data).filterMap (fun seg =>
    if seg = [] then none
    else if seg.contains ';' then none
    else parsePair seg)

/-- Byte-wise lexicographic order on character lists, as Go sorts query
keys. -/
def lexLeChars : List Char → List Char → Bool
  | [], _ => true
  | _ :: _, [] => false
  | a :: as, b :: bs =>
    if a.toNat < b.toNat then true
    else if b.toNat < a.toNat then false
    else lexLeChars as bs

/-- Insertion of a pair into a key-sorted pair list, stable for equal
keys. -/
def insertPairSorted (p : String × String) : List (String × String) → List (String × String)
  | [] => [p]
  | q :: rest =>
    if lexLeChars p.1.data q.1.data then p :: q :: rest
    else q :: insertPairSorted p rest

/-- Stable sort of query pairs by key; models the sorted-key iteration of
the Go method Values.Encode, under which the values of one key keep their
insertion order. -/
def sortPairs : List (String × String) → List (String × String)
  | [] => []
  | p :: rest => insertPairSorted p (sortPairs rest)

/-- Model of the Go method Values.Encode: pairs sorted by key, each emitted
as escaped key, equals sign, escaped value, joined with ampersands. -/
def urlValuesEncode (vs : List (String × String)) : String :=
  String.mk (joinChar '&' ((sortPairs vs).map
    (fun kv => escapeChars queryEscapeChar kv.1.data ++
      '=' :: escapeChars queryEscapeChar kv.2.data)))

/-- Modelled from the spec: sanitisedURLString is not among the given
source files. Per the spec, the service URL placed in a validation request
has its ticket query parameter stripped first; modelled as parsing the
query, dropping every pair whose key is ticket, and re-encoding. -/
def sanitisedURL (u : URL) : URL :=
  { u with rawQuery :=
      urlValuesEncode ((parseQuery u.rawQuery).filter (fun kv => kv.1 != "ticket")) }

/-- Modelled from the spec: the string form of the sanitized service URL. -/
def sanitisedURLString (u : URL) : String := urlToString (sanitisedURL u)

/-- Query construction shared by the three builders: read the query of the
endpoint URL, add the service and ticket parameters, and store the encoded
result, as the Go code does with u.Query(), two Add calls and Encode. -/
def addQueryParams (u : URL) (service ticket : String) : URL :=
  { u with rawQuery :=
      urlValuesEncode (parseQuery u.rawQuery ++ [("service", service), ("ticket", ticket)]) }

/-- Model of ServiceValidateUrl (service_validate.go lines 90 to 102). -/
def ServiceValidateUrl (casURL serviceURL : URL) (ticket : String) : String :=
  urlToString (addQueryParams
    (urlParsePathRef casURL (pathJoin casURL.path "serviceValidate"))
    (sanitisedURLString serviceURL) ticket)

/-- Model of ValidateUrl1 (service_validate.go lines 166 to 178). -/
def ValidateUrl1 (casURL serviceURL : URL) (ticket : String) : String :=
  urlToString (addQueryParams
    (urlParsePathRef casURL (pathJoin casURL.path "validate"))
    (sanitisedURLString serviceURL) ticket)

/-- Model of ValidateUrl3 (service_validate.go lines 242 to 255). -/
def ValidateUrl3 (casURL serviceURL : URL) (ticket : String) : String :=
  urlToString (addQueryParams
    (urlParsePathRef casURL (pathJoin casURL.path "p3/serviceValidate"))
    (sanitisedURLString serviceURL) ticket)

/-- Concrete CAS base URL of the spec example, mounted under a base path. -/
def exampleCasURL : URL :=
  { scheme := "https", host := "sso.example.com", path := "/cas", rawQuery := "" }

/-- Concrete service callback URL used in the examples. -/
def exampleServiceURL : URL :=
  { scheme := "https", host := "app.example.com", path := "/callback", rawQuery := "" }

/-- Concrete service callback URL carrying a ticket query parameter. -/
def exampleServiceURLWithTicket : URL :=
  { scheme := "https", host := "app.example.com", path := "/callback",
    rawQuery := "ticket=ST-9&a=b+c" }

/-- Segment of a path that is non-empty, is not a dot or dot-dot segment,
and consists of characters the escapers leave alone. -/
def normalSeg (s : List Char) : Bool :=
  !(s == []) && !(s == ['.']) && !(s == ['.', '.']) && s.all isUnreservedChar

/-- Paths in canonical absolute form: a slash followed by slash-joined
normal segments. Such a path is left unchanged by path.Clean and by path
resolution, so the base path of the CAS URL survives intact. -/
def CleanAbsPath (p : String) : Prop :=
  ∃ segs : List (List Char), segs ≠ [] ∧ (∀ s ∈ segs, normalSeg s = true) ∧
    p.data = '/' :: joinChar '/' segs

/-! Helper lemmas shared by several claims. -/

deriving instance DecidableEq for Except

theorem lookup_filter_key_self {β : Type} (l : List (String × β)) (c : String) :
    (l.filter (fun kv => kv.1 != c)).lookup c = none := by
  induction l with
  | nil => rfl
  | cons p rest ih =>
    obtain ⟨k2, v⟩ := p
    by_cases h : k2 = c
    · simpa [List.filter_cons, h] using ih
    · have hb : (c == k2) = false := by simp [Ne.symm h]
      simp [List.filter_cons, h, List.lookup, hb, ih]

theorem lookup_filter_key_ne {β : Type} (l : List (String × β)) (k c : String)
    (h : k ≠ c) : (l.filter (fun kv => kv.1 != c)).lookup k = l.lookup k := by
  induction l with
  | nil => rfl
  | cons p rest ih =>
    obtain ⟨k2, v⟩ := p
    by_cases h2 : k2 = c
    · subst h2
      have hk : (k == k2) = false := by simp [h]
      simp [List.filter_cons, List.lookup, hk, ih]
    · by_cases h3 : k = k2
      · subst h3
        simp [List.filter_cons, h2, List.lookup]
      · have hk : (k == k2) = false := by simp [h3]
        simp [List.filter_cons, h2, List.lookup, hk, ih]

theorem replaceFirstChars_of_isPrefixOf (pat rep s : List Char)
    (h : pat.isPrefixOf s = true) :
    replaceFirstChars pat rep s = rep ++ s.drop pat.length := by
  cases s with
  | nil =>
    have hp : pat = [] := by
      have := List.isPrefixOf_iff_prefix.mp h
      simpa using this
    subst hp
    simp [replaceFirstChars]
  | cons c rest =>
    unfold replaceFirstChars
    rw [if_pos h]

theorem replaceFirstChars_cons_not (pat rep : List Char) (c : Char) (s : List Char)
    (h : pat.isPrefixOf (c :: s) = false) :
    replaceFirstChars pat rep (c :: s) = c :: replaceFirstChars pat rep s := by
  conv_lhs => unfold replaceFirstChars
  rw [if_neg (by simp [h])]

theorem replaceFirstChars_first_occurrence (pat rep pre post : List Char)
    (hpre : ∀ k, k < pre.length →
      pat.isPrefixOf ((pre ++ (pat ++ post)).drop k) = false) :
    replaceFirstChars pat rep (pre ++ (pat ++ post)) = pre ++ (rep ++ post) := by
  induction pre with
  | nil =>
    simp only [List.nil_append]
    rw [replaceFirstChars_of_isPrefixOf pat rep (pat ++ post)
      (List.isPrefixOf_iff_prefix.mpr (List.prefix_append pat post))]
    rw [List.drop_left]
  | cons c pre ih =>
    have h0 : pat.isPrefixOf (c :: (pre ++ (pat ++ post))) = false := by
      have := hpre 0 (by simp)
      simpa using this
    have hpre2 : ∀ k, k < pre.length →
        pat.isPrefixOf ((pre ++ (pat ++ post)).drop k) = false := by
      intro k hk
      have := hpre (k + 1) (by simpa using Nat.succ_lt_succ hk)
      simpa using this
    calc replaceFirstChars pat rep ((c :: pre) ++ (pat ++ post))
        = replaceFirstChars pat rep (c :: (pre ++ (pat ++ post))) := by
          rw [List.cons_append]
      _ = c :: replaceFirstChars pat rep (pre ++ (pat ++ post)) :=
          replaceFirstChars_cons_not pat rep c _ h0
      _ = c :: (pre ++ (rep ++ post)) := by rw [ih hpre2]
      _ = (c :: pre) ++ (rep ++ post) := by rw [List.cons_append]

/-! Claims about the single logout handler and the context helpers. -/

theorem isSingleLogoutRequest_iff (r : SimpleRequest) :
    IsSingleLogoutRequest r = true ↔
      (r.method = "POST" ∧ r.contentType = "application/x-www-form-urlencoded" ∧
        formValue r "logoutRequest" ≠ "") := by
  unfold IsSingleLogoutRequest
  split_ifs with h1 h2 h3
  · simp [h1]
  · simp [h2]
  · simp [h3]
  · push_neg at h1 h2
    simp [h1, h2, h3]

theorem formValue_ne_empty_iff (r : SimpleRequest) (k : String) :
    formValue r k ≠ "" ↔ ∃ v, r.form.lookup k = some v ∧ v ≠ "" := by
  unfold formValue
  rcases hl : r.form.lookup k with _ | v
  · simp
  · simp

/-- C4: a request is detected as a single logout notification exactly when
it is a POST with the form content type and a present, non-empty
logoutRequest field; a request that is not detected goes through GetSession
and the wrapped handler, and a detected one never reaches the wrapped
handler. -/
theorem claim_C4_slo_detection_and_routing (r : SimpleRequest) :
    (IsSingleLogoutRequest r = true ↔
      (r.method = "POST" ∧ r.contentType = "application/x-www-form-urlencoded" ∧
        ∃ v, r.form.lookup "logoutRequest" = some v ∧ v ≠ "")) ∧
    (IsSingleLogoutRequest r = false →
      ServeHTTP r = { performedSingleLogout := false, calledGetSession := true,
                      calledWrappedHandler := true }) ∧
    (IsSingleLogoutRequest r = true → (ServeHTTP r).calledWrappedHandler = false) := by
  refine ⟨?_, ?_, ?_⟩
  · rw [isSingleLogoutRequest_iff r]
    constructor
    · rintro ⟨hm, hct, hf⟩
      exact ⟨hm, hct, (formValue_ne_empty_iff r "logoutRequest").mp hf⟩
    · rintro ⟨hm, hct, hv⟩
      exact ⟨hm, hct, (formValue_ne_empty_iff r "logoutRequest").mpr hv⟩
  · intro h
    simp [ServeHTTP, h]
  · intro h
    simp [ServeHTTP, h]

/-- C4 witness at a concrete detected request. -/
theorem claim_C4_witness :
    IsSingleLogoutRequest sloRequest = true ∧
    (ServeHTTP sloRequest).calledWrappedHandler = false := by
  have h := claim_C4_slo_detection_and_routing sloRequest
  have hdet : IsSingleLogoutRequest sloRequest = true :=
    h.1.mpr ⟨rfl, rfl, "payload", by decide, by decide⟩
  exact ⟨hdet, h.2.2 hdet⟩

/-- C1: on a successfully parsed logout notification the handler invalidates
the session through the ticket-keyed store at the session index; the
cookie-keyed session map is only ever touched through the cookie recorded in
the matched session, never with the session index used as a cookie key. -/
theorem claim_C1_slo_uses_ticket_store
    (parseLR : String → Except String LogoutRequest)
    (r : SimpleRequest) (st : ClientStores) (lr : LogoutRequest)
    (hparse : parseLR (formValue r "logoutRequest") = .ok lr) :
    (∀ e, ticketsDelete st lr.SessionIndex = .error e →
        (performSingleLogout parseLR r st).2 = st) ∧
    (∀ s, st.tickets.lookup lr.SessionIndex = some s →
        (performSingleLogout parseLR r st).2.tickets
            = st.tickets.filter (fun kv => kv.1 != lr.SessionIndex) ∧
        (performSingleLogout parseLR r st).2.tickets.lookup lr.SessionIndex = none ∧
        (performSingleLogout parseLR r st).2.sessions
            = st.sessions.filter (fun kv => kv.1 != s.cookie) ∧
        (s.cookie ≠ lr.SessionIndex →
          (performSingleLogout parseLR r st).2.sessions.lookup lr.SessionIndex
              = st.sessions.lookup lr.SessionIndex)) := by
  constructor
  · intro e he
    unfold performSingleLogout
    simp only [hparse]
    rw [he]
  · intro s hs
    have hdel : ticketsDelete st lr.SessionIndex
        = .ok { sessions := st.sessions.filter (fun kv => kv.1 != s.cookie),
                tickets := st.tickets.filter (fun kv => kv.1 != lr.SessionIndex) } := by
      unfold ticketsDelete
      rw [hs]
    unfold performSingleLogout
    simp only [hparse]
    rw [hdel]
    refine ⟨rfl, ?_, rfl, ?_⟩
    · exact lookup_filter_key_self st.tickets lr.SessionIndex
    · intro hne
      exact lookup_filter_key_ne st.sessions lr.SessionIndex s.cookie (Ne.symm hne)

/-- C1 witness at a concrete notification and store. -/
theorem claim_C1_witness :
    sloParseStub (formValue sloRequest "logoutRequest")
        = .ok { SessionIndex := "ST-1" } ∧
    sloStores.tickets.lookup "ST-1" = some sloSession ∧
    (performSingleLogout sloParseStub sloRequest sloStores).2.tickets.lookup "ST-1"
        = none ∧
    (performSingleLogout sloParseStub sloRequest sloStores).2.sessions
        = sloStores.sessions.filter (fun kv => kv.1 != sloSession.cookie) := by
  have h := (claim_C1_slo_uses_ticket_store sloParseStub sloRequest sloStores
    { SessionIndex := "ST-1" } rfl).2 sloSession rfl
  exact ⟨rfl, rfl, h.2.1, h.2.2.1⟩

/-- C5 counterexample: on a successful parse and delete the handler writes
status 200, but the body is OK followed by a newline, not the exact string
OK, because the Go code prints it with Fprintln. -/
theorem claim_C5_counterexample :
    (performSingleLogout sloParseStub sloRequest sloStores).1
        = { status := 200, body := "OK\n" } ∧ "OK\n" ≠ "OK" := by
  constructor
  · rfl
  · decide

/-- C5 as amended: parse failure and delete failure answer 500 with the
error text followed by a newline; success answers 200 with body OK followed
by a newline. -/
theorem claim_C5_amended_responses
    (parseLR : String → Except String LogoutRequest)
    (r : SimpleRequest) (st : ClientStores) :
    (∀ e, parseLR (formValue r "logoutRequest") = .error e →
        (performSingleLogout parseLR r st).1 = { status := 500, body := e ++ "\n" }) ∧
    (∀ lr, parseLR (formValue r "logoutRequest") = .ok lr →
        (∀ e, ticketsDelete st lr.SessionIndex = .error e →
            (performSingleLogout parseLR r st).1
                = { status := 500, body := e ++ "\n" }) ∧
        (∀ st2, ticketsDelete st lr.SessionIndex = .ok st2 →
            (performSingleLogout parseLR r st).1
                = { status := 200, body := "OK\n" })) := by
  constructor
  · intro e he
    unfold performSingleLogout
    rw [he]
    rfl
  · intro lr hlr
    constructor
    · intro e he
      unfold performSingleLogout
      simp only [hlr]
      rw [he]
      rfl
    · intro st2 h2
      unfold performSingleLogout
      simp only [hlr]
      rw [h2]

/-- C5 witness at a concrete notification and store. -/
theorem claim_C5_witness :
    ticketsDelete sloStores "ST-1" = .ok { sessions := [], tickets := [] } ∧
    (performSingleLogout sloParseStub sloRequest sloStores).1
        = { status := 200, body := "OK\n" } := by
  refine ⟨rfl, ?_⟩
  exact ((claim_C5_amended_responses sloParseStub sloRequest sloStores).2
    { SessionIndex := "ST-1" } rfl).2 { sessions := [], tickets := [] } rfl

/-- C9: the redirect helpers answer a request with no bound client with a
500 error response carrying an explicit message, never a redirect and never
a silent no-op. -/
theorem claim_C9_redirect_without_client (r : ContextRequest)
    (onLogin onLogout : Client → HttpAction) (h : GetClient r = none) :
    RedirectToLogin r onLogin = .errorResponse 500
        ("cas: redirect to cas failed as no client associated with request" ++ "\n") ∧
    RedirectToLogout r onLogout = .errorResponse 500
        ("cas: redirect to cas failed as no client associated with request" ++ "\n") := by
  unfold RedirectToLogin RedirectToLogout
  rw [h]
  exact ⟨rfl, rfl⟩

/-- C9 witness at a request that was never bound. -/
theorem claim_C9_witness :
    GetClient { boundClient := none } = none ∧
    RedirectToLogin { boundClient := none } (fun _ => .clientRedirect "login")
      = .errorResponse 500
        ("cas: redirect to cas failed as no client associated with request" ++ "\n") :=
  ⟨rfl, (claim_C9_redirect_without_client { boundClient := none }
    (fun _ => .clientRedirect "login") (fun _ => .clientRedirect "logout") rfl).1⟩

/-- C3 counterexample: status 204 is in the 2xx class, yet the v2 validator
answers with a transport error instead of the parser result, because the
code compares the status against exactly 200. -/
theorem claim_C3_counterexample :
    (200 ≤ 204 ∧ 204 < 300) ∧
    validateTicketCas2Core parseAlwaysOk 204 "resp"
        = .error ("cas: validate ticket: resp") ∧
    cas2ParseStage parseAlwaysOk "resp" = .ok none ∧
    validateTicketCas2Core parseAlwaysOk 204 "resp"
        ≠ cas2ParseStage parseAlwaysOk "resp" := by
  refine ⟨by decide, rfl, rfl, by decide⟩


/-- C3 as amended: for each protocol version, a status other than exactly
200 yields an error carrying the raw body, and a status of exactly 200
yields the parse stage result unchanged. -/
theorem claim_C3_amended_status_exactly_200
    (parse : String → Except String (Option AuthenticationResponse))
    (status : Nat) (body : String) :
    (status ≠ 200 →
        validateTicketCas1Core status body
            = some (.error ("cas: validate ticket: " ++ body)) ∧
        validateTicketCas2Core parse status body
            = .error ("cas: validate ticket: " ++ body) ∧
        validateTicketCas3Core parse status body
            = .error ("cas: validate ticket: " ++ body)) ∧
    (status = 200 →
        validateTicketCas1Core status body = cas1ParseStage body ∧
        validateTicketCas2Core parse status body = cas2ParseStage parse body ∧
        validateTicketCas3Core parse status body = cas3ParseStage parse body) := by
  constructor
  · intro h
    unfold validateTicketCas1Core validateTicketCas2Core validateTicketCas3Core
    rw [if_pos h, if_pos h, if_pos h]
    exact ⟨rfl, rfl, rfl⟩
  · intro h
    subst h
    unfold validateTicketCas1Core validateTicketCas2Core validateTicketCas3Core
    rw [if_neg (by simp), if_neg (by simp), if_neg (by simp)]
    exact ⟨rfl, rfl, rfl⟩

/-- C3 witness at concrete statuses 404 and 200. -/
theorem claim_C3_witness :
    (404 ≠ 200 ∧ validateTicketCas2Core parseAlwaysOk 404 "b"
        = .error ("cas: validate ticket: " ++ "b")) ∧
    validateTicketCas2Core parseAlwaysOk 200 "b"
        = cas2ParseStage parseAlwaysOk "b" :=
  ⟨⟨by decide, ((claim_C3_amended_status_exactly_200 parseAlwaysOk 404 "b").1
      (by decide)).2.1⟩,
   ((claim_C3_amended_status_exactly_200 parseAlwaysOk 200 "b").2 rfl).2.1⟩

/-! Lemmas on splitting, joining and cleaning paths. -/

theorem splitOnChar_no_sep (sep : Char) (l : List Char) (h : sep ∉ l) :
    splitOnChar sep l = [l] := by
  induction l with
  | nil => rfl
  | cons c rest ih =>
    have hc : c ≠ sep := fun hcc => h (hcc ▸ List.mem_cons_self c rest)
    have hrest : sep ∉ rest := fun hr => h (List.mem_cons_of_mem c hr)
    unfold splitOnChar
    rw [if_neg hc, ih hrest]

theorem splitOnChar_append (sep : Char) (a b : List Char) (h : sep ∉ a) :
    splitOnChar sep (a ++ sep :: b) = a :: splitOnChar sep b := by
  induction a with
  | nil =>
    simp only [List.nil_append]
    conv_lhs => rw [splitOnChar]
    rw [if_pos rfl]
  | cons c rest ih =>
    have hc : c ≠ sep := fun hcc => h (hcc ▸ List.mem_cons_self c rest)
    have hrest : sep ∉ rest := fun hr => h (List.mem_cons_of_mem c hr)
    rw [List.cons_append]
    conv_lhs => rw [splitOnChar]
    rw [if_neg hc, ih hrest]

theorem splitOnChar_joinChar (sep : Char) (segs : List (List Char)) (hne : segs ≠ [])
    (h : ∀ s ∈ segs, sep ∉ s) :
    splitOnChar sep (joinChar sep segs) = segs := by
  induction segs with
  | nil => exact absurd rfl hne
  | cons s rest ih =>
    cases rest with
    | nil =>
      show splitOnChar sep (joinChar sep [s]) = [s]
      rw [joinChar]
      exact splitOnChar_no_sep sep s (h s (List.mem_cons_self s []))
    | cons s2 rest2 =>
      rw [joinChar]
      rw [splitOnChar_append sep s _ (h s (List.mem_cons_self s _))]
      rw [ih (by simp) (fun x hx => h x (List.mem_cons_of_mem s hx))]

theorem joinChar_append (sep : Char) (s1 s2 : List (List Char)) (h1 : s1 ≠ [])
    (h2 : s2 ≠ []) :
    joinChar sep (s1 ++ s2) = joinChar sep s1 ++ sep :: joinChar sep s2 := by
  induction s1 with
  | nil => exact absurd rfl h1
  | cons s rest ih =>
    cases rest with
    | nil =>
      cases s2 with
      | nil => exact absurd rfl h2
      | cons t rest2 =>
        show joinChar sep (s :: t :: rest2) = joinChar sep [s] ++ sep :: joinChar sep (t :: rest2)
        rw [joinChar, joinChar]
    | cons s2a rest2 =>
      have hstep : joinChar sep ((s2a :: rest2) ++ s2)
          = joinChar sep (s2a :: rest2) ++ sep :: joinChar sep s2 := ih (by simp)
      rw [List.cons_append] at hstep
      show joinChar sep ((s :: s2a :: rest2) ++ s2)
          = joinChar sep (s :: s2a :: rest2) ++ sep :: joinChar sep s2
      rw [List.cons_append, List.cons_append]
      conv_lhs => rw [joinChar]
      conv_rhs => rw [joinChar]
      rw [hstep]
      simp

theorem mem_joinChar (sep : Char) (segs : List (List Char)) (c : Char)
    (h : c ∈ joinChar sep segs) : c = sep ∨ ∃ s ∈ segs, c ∈ s := by
  induction segs with
  | nil => simp [joinChar] at h
  | cons s rest ih =>
    cases rest with
    | nil =>
      rw [joinChar] at h
      exact Or.inr ⟨s, List.mem_cons_self s [], h⟩
    | cons s2 rest2 =>
      rw [joinChar] at h
      rcases List.mem_append.mp h with h1 | h1
      · exact Or.inr ⟨s, List.mem_cons_self s _, h1⟩
      · rcases List.mem_cons.mp h1 with h2 | h2
        · exact Or.inl h2
        · rcases ih h2 with h3 | ⟨x, hx, hcx⟩
          · exact Or.inl h3
          · exact Or.inr ⟨x, List.mem_cons_of_mem s hx, hcx⟩

theorem normalSeg_unfold (s : List Char) (h : normalSeg s = true) :
    ¬s = [] ∧ ¬s = ['.'] ∧ ¬s = ['.', '.'] ∧ ∀ c ∈ s, isUnreservedChar c = true := by
  have h2 := h
  simp only [normalSeg, Bool.and_eq_true, bne_iff_ne, ne_eq, List.all_eq_true,
    Bool.not_eq_true', beq_eq_false_iff_ne] at h2
  exact ⟨h2.1.1.1, h2.1.1.2, h2.1.2, h2.2⟩

theorem normalSeg_chars (s : List Char) (h : normalSeg s = true) :
    ∀ c ∈ s, isUnreservedChar c = true :=
  (normalSeg_unfold s h).2.2.2

theorem normalSeg_ne (s : List Char) (h : normalSeg s = true) :
    s ≠ [] ∧ s ≠ ['.'] ∧ s ≠ ['.', '.'] :=
  ⟨(normalSeg_unfold s h).1, (normalSeg_unfold s h).2.1, (normalSeg_unfold s h).2.2.1⟩

theorem normalSeg_no_slash (s : List Char) (h : normalSeg s = true) : '/' ∉ s := by
  intro hmem
  have := normalSeg_chars s h '/' hmem
  exact absurd this (by decide)

theorem cleanSegsAux_normal (rooted : Bool) (segs : List (List Char)) :
    ∀ acc, (∀ s ∈ segs, normalSeg s = true) →
      cleanSegsAux rooted acc segs = acc.reverse ++ segs := by
  induction segs with
  | nil => intro acc _; simp [cleanSegsAux]
  | cons s rest ih =>
    intro acc h
    have hs := normalSeg_ne s (h s (List.mem_cons_self s rest))
    unfold cleanSegsAux
    rw [if_neg (by simp [hs.1, hs.2.1]), if_neg (by simp [hs.2.2])]
    rw [ih (s :: acc) (fun x hx => h x (List.mem_cons_of_mem s hx))]
    simp

theorem resolveSegsAux_normal (segs : List (List Char)) :
    ∀ acc, (∀ s ∈ segs, normalSeg s = true) →
      resolveSegsAux acc segs = acc.reverse ++ segs := by
  induction segs with
  | nil => intro acc _; simp [resolveSegsAux]
  | cons s rest ih =>
    intro acc h
    have hs := normalSeg_ne s (h s (List.mem_cons_self s rest))
    unfold resolveSegsAux
    rw [if_neg (by simp [hs.2.1]), if_neg (by simp [hs.2.2])]
    rw [ih (s :: acc) (fun x hx => h x (List.mem_cons_of_mem s hx))]
    simp

theorem joinChar_normal_ne_nil (segs : List (List Char)) (hne : segs ≠ [])
    (h : ∀ s ∈ segs, normalSeg s = true) : joinChar '/' segs ≠ [] := by
  cases segs with
  | nil => exact absurd rfl hne
  | cons s rest =>
    have hs := (normalSeg_ne s (h s (List.mem_cons_self s rest))).1
    cases rest with
    | nil =>
      rw [joinChar]
      exact hs
    | cons s2 rest2 =>
      rw [joinChar]
      intro hcon
      rcases List.append_eq_nil.mp hcon with ⟨-, h2⟩
      exact List.cons_ne_nil _ _ h2

theorem joinChar_normal_not_rooted (segs : List (List Char)) (hne : segs ≠ [])
    (h : ∀ s ∈ segs, normalSeg s = true) : isRooted (joinChar '/' segs) = false := by
  cases segs with
  | nil => exact absurd rfl hne
  | cons s rest =>
    have hs := h s (List.mem_cons_self s rest)
    have hcons : ∃ c s2, s = c :: s2 ∧ isUnreservedChar c = true := by
      cases s with
      | nil => exact absurd rfl ((normalSeg_ne _ hs).1)
      | cons c s2 => exact ⟨c, s2, rfl, normalSeg_chars _ hs c (List.mem_cons_self c s2)⟩
    rcases hcons with ⟨c, s2, hseq, hc⟩
    have hcslash : c ≠ '/' := by
      intro hcc
      rw [hcc] at hc
      exact absurd hc (by decide)
    cases rest with
    | nil =>
      rw [joinChar, hseq]
      simp [isRooted, hcslash]
    | cons s3 rest2 =>
      rw [joinChar, hseq, List.cons_append]
      simp [isRooted, hcslash]

theorem data_mk (l : List Char) : (String.mk l).data = l := rfl

theorem mk_cons_ne_empty (c : Char) (rest : List Char) : String.mk (c :: rest) ≠ "" := by
  intro h
  have h2 : c :: rest = ([] : List Char) := congrArg String.data h
  exact List.cons_ne_nil c rest h2

theorem pathClean_abs (segs : List (List Char)) (hne : segs ≠ [])
    (h : ∀ s ∈ segs, normalSeg s = true) :
    pathClean (String.mk ('/' :: joinChar '/' segs))
      = String.mk ('/' :: joinChar '/' segs) := by
  have hnoslash : ∀ s ∈ segs, '/' ∉ s := fun s hs => normalSeg_no_slash s (h s hs)
  have hsplit : splitOnChar '/' ('/' :: joinChar '/' segs) = [] :: segs := by
    conv_lhs => rw [splitOnChar]
    rw [if_pos rfl, splitOnChar_joinChar '/' segs hne hnoslash]
  have hclean : cleanSegsAux true [] ([] :: segs) = segs := by
    conv_lhs => rw [cleanSegsAux]
    rw [if_pos (Or.inl rfl), cleanSegsAux_normal true segs [] h]
    rfl
  have hroot : isRooted ('/' :: joinChar '/' segs) = true := rfl
  simp only [pathClean, data_mk]
  rw [if_neg (mk_cons_ne_empty _ _), hroot, hsplit, hclean]
  rw [if_pos rfl]
  rw [if_neg (by simp)]
  rfl

theorem pathClean_rel (segs : List (List Char)) (hne : segs ≠ [])
    (h : ∀ s ∈ segs, normalSeg s = true) :
    pathClean (String.mk (joinChar '/' segs)) = String.mk (joinChar '/' segs) := by
  have hnoslash : ∀ s ∈ segs, '/' ∉ s := fun s hs => normalSeg_no_slash s (h s hs)
  have hjne : joinChar '/' segs ≠ [] := joinChar_normal_ne_nil segs hne h
  have hmkne : String.mk (joinChar '/' segs) ≠ "" := by
    intro hcon
    exact hjne (congrArg String.data hcon)
  have hroot : isRooted (joinChar '/' segs) = false := joinChar_normal_not_rooted segs hne h
  have hclean : cleanSegsAux false [] segs = segs := by
    rw [cleanSegsAux_normal false segs [] h]
    rfl
  simp only [pathClean, data_mk]
  rw [if_neg hmkne, hroot, splitOnChar_joinChar '/' segs hne hnoslash, hclean]
  show (if joinChar '/' segs = [] then "." else String.mk (joinChar '/' segs))
      = String.mk (joinChar '/' segs)
  rw [if_neg hjne]

theorem pathJoin_abs (p : String) (segs : List (List Char)) (hps : p.data = '/' :: joinChar '/' segs)
    (hne : segs ≠ []) (h : ∀ s ∈ segs, normalSeg s = true)
    (bsegs : List (List Char)) (hbne : bsegs ≠ [])
    (hb : ∀ s ∈ bsegs, normalSeg s = true) :
    pathJoin p (String.mk (joinChar '/' bsegs))
      = String.mk ('/' :: joinChar '/' (segs ++ bsegs)) := by
  have hpne : p ≠ "" := by
    intro hcon
    have : p.data = [] := by rw [hcon]
    rw [hps] at this
    exact List.cons_ne_nil _ _ this
  have hbne2 : String.mk (joinChar '/' bsegs) ≠ "" := by
    intro hcon
    exact joinChar_normal_ne_nil bsegs hbne hb (congrArg String.data hcon)
  have hdata : (p ++ "/" ++ String.mk (joinChar '/' bsegs)).data
      = '/' :: joinChar '/' (segs ++ bsegs) := by
    rw [String.data_append, String.data_append, hps, data_mk]
    rw [joinChar_append '/' segs bsegs hne hbne]
    simp
  have hseq : p ++ "/" ++ String.mk (joinChar '/' bsegs)
      = String.mk ('/' :: joinChar '/' (segs ++ bsegs)) := String.ext hdata
  unfold pathJoin
  rw [if_neg (by intro hcon; exact hpne hcon.1), if_neg hpne, if_neg hbne2, hseq]
  exact pathClean_abs (segs ++ bsegs) (by simp [hne]) (by
    intro s hs
    rcases List.mem_append.mp hs with h1 | h1
    · exact h s h1
    · exact hb s h1)

theorem getLast?_cons_of_ne_nil {α : Type} (a : α) (l : List α) (h : l ≠ []) :
    (a :: l).getLast? = l.getLast? := by
  cases l with
  | nil => exact absurd rfl h
  | cons b rest => exact List.getLast?_cons_cons

theorem resolvePathGo_abs (base : String) (segs : List (List Char)) (hne : segs ≠ [])
    (h : ∀ s ∈ segs, normalSeg s = true) :
    resolvePathGo base (String.mk ('/' :: joinChar '/' segs))
      = String.mk ('/' :: joinChar '/' segs) := by
  have hnoslash : ∀ s ∈ segs, '/' ∉ s := fun s hs => normalSeg_no_slash s (h s hs)
  have hsplit : splitOnChar '/' ('/' :: joinChar '/' segs) = [] :: segs := by
    conv_lhs => rw [splitOnChar]
    rw [if_pos rfl, splitOnChar_joinChar '/' segs hne hnoslash]
  have hres : resolveSegsAux [] ([] :: segs) = [] :: segs := by
    conv_lhs => rw [resolveSegsAux]
    rw [if_neg (by simp), if_neg (by simp), resolveSegsAux_normal segs [[]] h]
    rfl
  obtain ⟨lastSeg, hlast⟩ : ∃ x, segs.getLast? = some x :=
    ⟨segs.getLast hne, List.getLast?_eq_getLast segs hne⟩
  have hlastMem : lastSeg ∈ segs := by
    have hl := List.getLast?_eq_getLast segs hne
    rw [hlast] at hl
    rw [Option.some.inj hl]
    exact List.getLast_mem hne
  have hlastNormal := normalSeg_ne lastSeg (h lastSeg hlastMem)
  have hlast2 : ([] :: segs).getLast? = some lastSeg := by
    rw [getLast?_cons_of_ne_nil [] segs hne, hlast]
  have hjoin : joinChar '/' ([] :: segs) = '/' :: joinChar '/' segs := by
    cases segs with
    | nil => exact absurd rfl hne
    | cons s rest => rw [joinChar]; rfl
  simp only [resolvePathGo, data_mk]
  rw [if_neg (mk_cons_ne_empty '/' (joinChar '/' segs))]
  rw [if_pos (show isRooted ('/' :: joinChar '/' segs) = true from rfl)]
  rw [if_neg (show ¬('/' :: joinChar '/' segs = ([] : List Char)) from by simp)]
  rw [hsplit, hres, hlast2]
  have hdots : ¬(some lastSeg = some ['.'] ∨ some lastSeg = some ['.', '.']) := by
    rintro (hcon | hcon)
    · exact hlastNormal.2.1 (Option.some.inj hcon)
    · exact hlastNormal.2.2 (Option.some.inj hcon)
  rw [if_neg hdots, hjoin]
  rw [if_pos (show isRooted ('/' :: joinChar '/' segs) = true from rfl)]
  rfl

theorem resolvePathGo_rel_empty (segs : List (List Char)) (hne : segs ≠ [])
    (h : ∀ s ∈ segs, normalSeg s = true) :
    resolvePathGo "" (String.mk (joinChar '/' segs))
      = String.mk ('/' :: joinChar '/' segs) := by
  have hnoslash : ∀ s ∈ segs, '/' ∉ s := fun s hs => normalSeg_no_slash s (h s hs)
  have hjne : joinChar '/' segs ≠ [] := joinChar_normal_ne_nil segs hne h
  have hmkne : String.mk (joinChar '/' segs) ≠ "" := by
    intro hcon
    exact hjne (congrArg String.data hcon)
  have hroot : isRooted (joinChar '/' segs) = false := joinChar_normal_not_rooted segs hne h
  obtain ⟨lastSeg, hlast⟩ : ∃ x, segs.getLast? = some x :=
    ⟨segs.getLast hne, List.getLast?_eq_getLast segs hne⟩
  have hlastMem : lastSeg ∈ segs := by
    have hl := List.getLast?_eq_getLast segs hne
    rw [hlast] at hl
    rw [Option.some.inj hl]
    exact List.getLast_mem hne
  have hlastNormal := normalSeg_ne lastSeg (h lastSeg hlastMem)
  have hres : resolveSegsAux [] segs = segs := by
    rw [resolveSegsAux_normal segs [] h]
    rfl
  simp only [resolvePathGo, data_mk]
  rw [if_neg hmkne, hroot]
  rw [if_neg (show ¬(false = true) from by simp)]
  rw [show upToLastSlash ("" : String).data ++ joinChar '/' segs
      = joinChar '/' segs from rfl]
  rw [if_neg hjne]
  rw [splitOnChar_joinChar '/' segs hne hnoslash, hres, hlast]
  have hdots : ¬(some lastSeg = some ['.'] ∨ some lastSeg = some ['.', '.']) := by
    rintro (hcon | hcon)
    · exact hlastNormal.2.1 (Option.some.inj hcon)
    · exact hlastNormal.2.2 (Option.some.inj hcon)
  rw [if_neg hdots]
  rw [hroot, if_neg (show ¬(false = true) from by simp)]

theorem unreserved_pathSafe (c : Char) (h : isUnreservedChar c = true) :
    isPathSafeChar c = true := by
  simp [isPathSafeChar, h]

theorem escapeChars_id (esc : Char → List Char) (l : List Char)
    (h : ∀ c ∈ l, esc c = [c]) : escapeChars esc l = l := by
  induction l with
  | nil => rfl
  | cons c rest ih =>
    rw [escapeChars, h c (List.mem_cons_self c rest),
      ih (fun x hx => h x (List.mem_cons_of_mem c hx))]
    rfl

theorem pathEscapeChar_safe (c : Char) (h : isPathSafeChar c = true) :
    pathEscapeChar c = [c] := by
  unfold pathEscapeChar
  rw [if_pos h]

theorem pathEscape_abs (segs : List (List Char)) (h : ∀ s ∈ segs, normalSeg s = true) :
    pathEscape (String.mk ('/' :: joinChar '/' segs))
      = String.mk ('/' :: joinChar '/' segs) := by
  unfold pathEscape
  rw [data_mk, escapeChars_id]
  intro c hc
  rcases List.mem_cons.mp hc with h1 | h1
  · rw [h1]
    decide
  · rcases mem_joinChar '/' segs c h1 with h2 | ⟨s, hs, hcs⟩
    · rw [h2]
      decide
    · exact pathEscapeChar_safe c (unreserved_pathSafe c (normalSeg_chars s (h s hs) c hcs))

theorem empty_append_str (s : String) : "" ++ s = s :=
  String.ext (by rw [String.data_append]; rfl)

theorem builder_path (casPath : String) (hcas : casPath = "" ∨ CleanAbsPath casPath)
    (bsegs : List (List Char)) (hbne : bsegs ≠ [])
    (hb : ∀ s ∈ bsegs, normalSeg s = true) :
    resolvePathGo casPath (pathJoin casPath (String.mk (joinChar '/' bsegs)))
        = casPath ++ String.mk ('/' :: joinChar '/' bsegs) ∧
    pathEscape (casPath ++ String.mk ('/' :: joinChar '/' bsegs))
        = casPath ++ String.mk ('/' :: joinChar '/' bsegs) := by
  rcases hcas with hcas | ⟨segs, hne, hnorm, hdata⟩
  · subst hcas
    have hbne2 : String.mk (joinChar '/' bsegs) ≠ "" := by
      intro hcon
      exact joinChar_normal_ne_nil bsegs hbne hb (congrArg String.data hcon)
    have hj : pathJoin "" (String.mk (joinChar '/' bsegs))
        = String.mk (joinChar '/' bsegs) := by
      unfold pathJoin
      rw [if_neg (fun hc => hbne2 hc.2), if_pos rfl]
      exact pathClean_rel bsegs hbne hb
    constructor
    · rw [hj, resolvePathGo_rel_empty bsegs hbne hb, empty_append_str]
    · exact pathEscape_abs bsegs hb
  · have hnormApp : ∀ s ∈ segs ++ bsegs, normalSeg s = true := fun s hs =>
      (List.mem_append.mp hs).elim (hnorm s) (hb s)
    have hneApp : segs ++ bsegs ≠ [] := by simp [hne]
    have hcat : casPath ++ String.mk ('/' :: joinChar '/' bsegs)
        = String.mk ('/' :: joinChar '/' (segs ++ bsegs)) := by
      apply String.ext
      rw [String.data_append, hdata, data_mk, data_mk,
        joinChar_append '/' segs bsegs hne hbne]
      simp
    constructor
    · rw [pathJoin_abs casPath segs hdata hne hnorm bsegs hbne hb]
      rw [resolvePathGo_abs casPath (segs ++ bsegs) hneApp hnormApp]
      exact hcat.symm
    · rw [hcat]
      exact pathEscape_abs (segs ++ bsegs) hnormApp

theorem sortPairs_service_ticket (sv t : String) :
    sortPairs [("service", sv), ("ticket", t)] = [("service", sv), ("ticket", t)] := rfl

theorem addQueryParams_empty_query (u : URL) (hq : u.rawQuery = "") (sv t : String) :
    (addQueryParams u sv t).rawQuery
        = "service=" ++ queryEscape sv ++ "&ticket=" ++ queryEscape t := by
  show urlValuesEncode (parseQuery u.rawQuery ++ [("service", sv), ("ticket", t)]) = _
  rw [hq, show parseQuery "" = [] from rfl, List.nil_append]
  unfold urlValuesEncode
  rw [sortPairs_service_ticket]
  apply String.ext
  have h1 : escapeChars queryEscapeChar ("service" : String).data
      = ("service" : String).data := by decide
  have h2 : escapeChars queryEscapeChar ("ticket" : String).data
      = ("ticket" : String).data := by decide
  show (escapeChars queryEscapeChar ("service" : String).data ++
      '=' :: escapeChars queryEscapeChar sv.data) ++
      '&' :: (escapeChars queryEscapeChar ("ticket" : String).data ++
        '=' :: escapeChars queryEscapeChar t.data)
      = ("service=" ++ queryEscape sv ++ "&ticket=" ++ queryEscape t).data
  rw [h1, h2, String.data_append, String.data_append, String.data_append]
  show _ = ("service=" : String).data ++ (queryEscape sv).data ++
    ("&ticket=" : String).data ++ (queryEscape t).data
  have h3 : ("service=" : String).data = ("service" : String).data ++ ['='] := rfl
  have h4 : ("&ticket=" : String).data = '&' :: (("ticket" : String).data ++ ['=']) := rfl
  rw [h3, h4]
  show _ = (("service" : String).data ++ ['=']) ++
    escapeChars queryEscapeChar sv.data ++
    ('&' :: (("ticket" : String).data ++ ['='])) ++ escapeChars queryEscapeChar t.data
  simp [List.append_assoc]

theorem addQueryParams_scheme (u : URL) (sv t : String) :
    (addQueryParams u sv t).scheme = u.scheme := rfl

theorem addQueryParams_host (u : URL) (sv t : String) :
    (addQueryParams u sv t).host = u.host := rfl

theorem addQueryParams_path (u : URL) (sv t : String) :
    (addQueryParams u sv t).path = u.path := rfl

theorem urlParsePathRef_path (b : URL) (r : String) :
    (urlParsePathRef b r).path = resolvePathGo b.path r := rfl

theorem builder_query_ne_empty (sv t : String) :
    ("service=" ++ queryEscape sv ++ "&ticket=" ++ queryEscape t : String) ≠ "" := by
  intro hcon
  have h2 := congrArg String.data hcon
  rw [String.data_append, String.data_append, String.data_append] at h2
  have h3 : (("" : String)).data = ([] : List Char) := rfl
  rw [h3] at h2
  rcases List.append_eq_nil.mp h2 with ⟨h4, -⟩
  rcases List.append_eq_nil.mp h4 with ⟨h5, -⟩
  rcases List.append_eq_nil.mp h5 with ⟨h6, -⟩
  exact absurd h6 (by decide)

theorem builder_url (casURL serviceURL : URL) (ticket : String)
    (h : casURL.path = "" ∨ CleanAbsPath casURL.path)
    (bsegs : List (List Char)) (hbne : bsegs ≠ [])
    (hb : ∀ s ∈ bsegs, normalSeg s = true) :
    urlToString (addQueryParams
        (urlParsePathRef casURL (pathJoin casURL.path (String.mk (joinChar '/' bsegs))))
        (sanitisedURLString serviceURL) ticket)
      = casURL.scheme ++ "://" ++ casURL.host ++
        (casURL.path ++ String.mk ('/' :: joinChar '/' bsegs)) ++
        ("?service=" ++ queryEscape (sanitisedURLString serviceURL) ++ "&ticket="
          ++ queryEscape ticket) := by
  obtain ⟨hpath, hesc⟩ := builder_path casURL.path h bsegs hbne hb
  have hrq : (addQueryParams
      (urlParsePathRef casURL (pathJoin casURL.path (String.mk (joinChar '/' bsegs))))
      (sanitisedURLString serviceURL) ticket).rawQuery
      = "service=" ++ queryEscape (sanitisedURLString serviceURL) ++ "&ticket="
        ++ queryEscape ticket :=
    addQueryParams_empty_query _ rfl _ _
  unfold urlToString
  rw [hrq, if_neg (builder_query_ne_empty _ _)]
  rw [addQueryParams_scheme, addQueryParams_host, addQueryParams_path]
  rw [urlParsePathRef_path, hpath]
  show casURL.scheme ++ "://" ++ casURL.host ++
      pathEscape (casURL.path ++ String.mk ('/' :: joinChar '/' bsegs)) ++ _ = _
  rw [hesc]
  have hq2 : ("?" : String) ++ ("service=" ++ queryEscape (sanitisedURLString serviceURL)
      ++ "&ticket=" ++ queryEscape ticket)
      = "?service=" ++ queryEscape (sanitisedURLString serviceURL) ++ "&ticket="
        ++ queryEscape ticket := by
    rw [← String.append_assoc, ← String.append_assoc, ← String.append_assoc]
    rfl
  rw [hq2]

/-- C6: the three validation URL builders preserve the base path of the CAS
server URL (assumed in canonical form: empty, or rooted with clean
segments), appending the endpoint for each protocol version, with the query
parameters service and ticket. -/
theorem claim_C6_url_builders (casURL serviceURL : URL) (ticket : String)
    (h : casURL.path = "" ∨ CleanAbsPath casURL.path) :
    ServiceValidateUrl casURL serviceURL ticket
        = casURL.scheme ++ "://" ++ casURL.host ++ (casURL.path ++ "/serviceValidate")
          ++ ("?service=" ++ queryEscape (sanitisedURLString serviceURL) ++ "&ticket="
            ++ queryEscape ticket) ∧
    ValidateUrl1 casURL serviceURL ticket
        = casURL.scheme ++ "://" ++ casURL.host ++ (casURL.path ++ "/validate")
          ++ ("?service=" ++ queryEscape (sanitisedURLString serviceURL) ++ "&ticket="
            ++ queryEscape ticket) ∧
    ValidateUrl3 casURL serviceURL ticket
        = casURL.scheme ++ "://" ++ casURL.host ++ (casURL.path ++ "/p3/serviceValidate")
          ++ ("?service=" ++ queryEscape (sanitisedURLString serviceURL) ++ "&ticket="
            ++ queryEscape ticket) := by
  refine ⟨?_, ?_, ?_⟩
  · have hb := builder_url casURL serviceURL ticket h [("serviceValidate" : String).data]
      (by simp) (by decide)
    have e1 : String.mk (joinChar '/' [("serviceValidate" : String).data])
        = "serviceValidate" := rfl
    have e2 : String.mk ('/' :: joinChar '/' [("serviceValidate" : String).data])
        = "/serviceValidate" := rfl
    rw [e1, e2] at hb
    exact hb
  · have hb := builder_url casURL serviceURL ticket h [("validate" : String).data]
      (by simp) (by decide)
    have e1 : String.mk (joinChar '/' [("validate" : String).data]) = "validate" := rfl
    have e2 : String.mk ('/' :: joinChar '/' [("validate" : String).data])
        = "/validate" := rfl
    rw [e1, e2] at hb
    exact hb
  · have hb := builder_url casURL serviceURL ticket h
      [['p', '3'], ("serviceValidate" : String).data] (by simp) (by decide)
    have e1 : String.mk (joinChar '/' [['p', '3'], ("serviceValidate" : String).data])
        = "p3/serviceValidate" := rfl
    have e2 : String.mk ('/' :: joinChar '/' [['p', '3'], ("serviceValidate" : String).data])
        = "/p3/serviceValidate" := rfl
    rw [e1, e2] at hb
    exact hb

/-- C6 witness at the base URL of the spec example. -/
theorem claim_C6_witness :
    CleanAbsPath "/cas" ∧
    ServiceValidateUrl exampleCasURL exampleServiceURL "ST-123"
      = "https://sso.example.com/cas/serviceValidate?service=https%3A%2F%2Fapp.example.com%2Fcallback&ticket=ST-123" ∧
    ValidateUrl3 exampleCasURL exampleServiceURL "ST-123"
      = "https://sso.example.com/cas/p3/serviceValidate?service=https%3A%2F%2Fapp.example.com%2Fcallback&ticket=ST-123" := by
  have hclean : CleanAbsPath "/cas" := ⟨[['c', 'a', 's']], by simp, by decide, rfl⟩
  have h := claim_C6_url_builders exampleCasURL exampleServiceURL "ST-123" (Or.inr hclean)
  refine ⟨hclean, ?_, ?_⟩
  · rw [h.1]
    decide
  · rw [h.2.2]
    decide

/-! Lemmas for the query escape round trip, claim C7. -/

theorem hexVal_hexDigitUpper : ∀ n, n < 16 → hexVal (hexDigitUpper n) = some n := by
  decide

theorem hexDigitUpper_not_special : ∀ n, n < 16 →
    hexDigitUpper n ≠ '&' ∧ hexDigitUpper n ≠ ';' ∧ hexDigitUpper n ≠ '=' := by
  decide

theorem unreservedChar_facts (c : Char) (h : isUnreservedChar c = true) :
    c ≠ '&' ∧ c ≠ ';' ∧ c ≠ '=' ∧ c ≠ '%' ∧ c ≠ '+' := by
  refine ⟨?_, ?_, ?_, ?_, ?_⟩ <;> rintro rfl <;> exact absurd h (by decide)

theorem queryEscapeChar_mem (c d : Char) (h : d ∈ queryEscapeChar c) :
    d ≠ '&' ∧ d ≠ ';' ∧ d ≠ '=' := by
  unfold queryEscapeChar at h
  by_cases h1 : isUnreservedChar c = true
  · rw [if_pos h1] at h
    have hd : d = c := List.mem_singleton.mp h
    rw [hd]
    have hf := unreservedChar_facts c h1
    exact ⟨hf.1, hf.2.1, hf.2.2.1⟩
  · rw [if_neg h1] at h
    by_cases h2 : (c == ' ') = true
    · rw [if_pos h2] at h
      have hd : d = '+' := List.mem_singleton.mp h
      subst hd
      exact ⟨by decide, by decide, by decide⟩
    · rw [if_neg h2] at h
      unfold percentEncodeChar at h
      rcases List.mem_cons.mp h with hd | h3
      · subst hd
        exact ⟨by decide, by decide, by decide⟩
      · rcases List.mem_cons.mp h3 with hd | h4
        · subst hd
          exact hexDigitUpper_not_special _ (Nat.mod_lt _ (by omega))
        · have hd : d = hexDigitUpper (c.toNat % 16) := List.mem_singleton.mp h4
          subst hd
          exact hexDigitUpper_not_special _ (Nat.mod_lt _ (by omega))

theorem escapeChars_not_special (l : List Char) (d : Char)
    (h : d ∈ escapeChars queryEscapeChar l) : d ≠ '&' ∧ d ≠ ';' ∧ d ≠ '=' := by
  induction l with
  | nil => simp [escapeChars] at h
  | cons c rest ih =>
    rw [escapeChars] at h
    rcases List.mem_append.mp h with h1 | h1
    · exact queryEscapeChar_mem c d h1
    · exact ih h1

theorem char_ofNat_toNat_of_lt (n : Nat) (h : n < 256) : (Char.ofNat n).toNat = n := by
  have hv : Nat.isValidChar n := Or.inl (by omega)
  simp [Char.ofNat, hv]
  rfl

theorem qu_cons_eq (c : Char) (rest : List Char) :
    queryUnescapeChars (c :: rest) =
      if c = '%' then
        match rest with
        | a :: b :: rest2 =>
          match hexVal a, hexVal b, queryUnescapeChars rest2 with
          | some x, some y, some r => some (Char.ofNat (16 * x + y) :: r)
          | _, _, _ => none
        | _ => none
      else if c = '+' then (queryUnescapeChars rest).map (fun r => ' ' :: r)
      else (queryUnescapeChars rest).map (fun r => c :: r) := by
  match rest with
  | a :: b :: rest2 => exact queryUnescapeChars.eq_2 c a b rest2
  | [] =>
    rw [queryUnescapeChars.eq_3 c [] (by intro x y r hcon; cases hcon)]
  | [a] =>
    rw [queryUnescapeChars.eq_3 c [a] (by intro x y r hcon; simp at hcon)]

theorem hexVal_lt (c : Char) (x : Nat) (h : hexVal c = some x) : x < 16 := by
  unfold hexVal at h
  split_ifs at h with h1 h2 h3
  · simp at h1
    have hb2 : c.toNat ≤ 57 := h1.2
    injection h with h4
    omega
  · simp at h2
    have hb2 : c.toNat ≤ 102 := h2.2
    injection h with h4
    omega
  · simp at h3
    have hb2 : c.toNat ≤ 70 := h3.2
    injection h with h4
    omega

theorem unescape_escape (l : List Char) (h : ∀ c ∈ l, c.toNat < 256) :
    queryUnescapeChars (escapeChars queryEscapeChar l) = some l := by
  induction l with
  | nil => rfl
  | cons c rest ih =>
    have hc := h c (List.mem_cons_self c rest)
    have hrest := ih (fun x hx => h x (List.mem_cons_of_mem c hx))
    rw [escapeChars]
    unfold queryEscapeChar
    by_cases h1 : isUnreservedChar c = true
    · rw [if_pos h1]
      have hf := unreservedChar_facts c h1
      show queryUnescapeChars (c :: escapeChars queryEscapeChar rest) = some (c :: rest)
      rw [qu_cons_eq, if_neg hf.2.2.2.1, if_neg hf.2.2.2.2, hrest]
      rfl
    · rw [if_neg h1]
      by_cases h2 : (c == ' ') = true
      · rw [if_pos h2]
        have hceq : c = ' ' := by simpa using h2
        show queryUnescapeChars ('+' :: escapeChars queryEscapeChar rest) = some (c :: rest)
        rw [qu_cons_eq, if_neg (by decide), if_pos rfl, hrest, hceq]
        rfl
      · rw [if_neg h2]
        show queryUnescapeChars ('%' :: hexDigitUpper (c.toNat / 16 % 16) ::
          hexDigitUpper (c.toNat % 16) :: escapeChars queryEscapeChar rest)
          = some (c :: rest)
        rw [queryUnescapeChars.eq_2, if_pos rfl]
        simp only [hexVal_hexDigitUpper _ (Nat.mod_lt _ (show 0 < 16 by omega)), hrest]
        have harith : 16 * (c.toNat / 16 % 16) + c.toNat % 16 = c.toNat := by omega
        rw [harith, Char.ofNat_toNat]

theorem unescape_chars_lt (l : List Char) :
    ∀ r, (∀ c ∈ l, c.toNat < 256) → queryUnescapeChars l = some r →
      ∀ c ∈ r, c.toNat < 256 := by
  induction l using queryUnescapeChars.induct with
  | case1 =>
    intro r _ hr c hcr
    have hre : r = [] := (Option.some.inj hr).symm
    subst hre
    simp at hcr
  | case2 a b rest2 x y r0 hrec hb ha ih =>
    intro r hlt hr d hdr
    rw [queryUnescapeChars.eq_2, if_pos rfl, ha, hb, hrec] at hr
    have hre : r = Char.ofNat (16 * x + y) :: r0 := (Option.some.inj hr).symm
    subst hre
    rcases List.mem_cons.mp hdr with hd | hd
    · subst hd
      have hx := hexVal_lt a x ha
      have hy := hexVal_lt b y hb
      rw [char_ofNat_toNat_of_lt (16 * x + y) (by omega)]
      omega
    · exact ih r0 (fun e he => hlt e (by simp [he])) hrec d hd
  | case3 a b rest2 hfalse ih =>
    intro r hlt hr
    rw [queryUnescapeChars.eq_2, if_pos rfl] at hr
    rcases hx : hexVal a with _ | x <;> rcases hy : hexVal b with _ | y <;>
      rcases hrec : queryUnescapeChars rest2 with _ | r0 <;> rw [hx, hy, hrec] at hr
    all_goals first
      | exact Option.noConfusion hr
      | exact (hfalse _ _ _ hx hy hrec).elim
  | case4 rest hshape =>
    intro r hlt hr
    rw [qu_cons_eq, if_pos rfl] at hr
    rcases rest with _ | ⟨a, rest1⟩
    · exact Option.noConfusion hr
    · rcases rest1 with _ | ⟨b, rest2⟩
      · exact Option.noConfusion hr
      · exact (hshape a b rest2 rfl).elim
  | case5 rest hne ih =>
    intro r hlt hr d hdr
    rw [qu_cons_eq, if_neg hne, if_pos rfl] at hr
    rcases hrec : queryUnescapeChars rest with _ | r0 <;> rw [hrec] at hr
    · exact Option.noConfusion hr
    · have hre : r = ' ' :: r0 := (Option.some.inj hr).symm
      subst hre
      rcases List.mem_cons.mp hdr with hd | hd
      · subst hd
        decide
      · exact ih r0 (fun e he => hlt e (by simp [he])) hrec d hd
  | case6 c rest h1 h2 ih =>
    intro r hlt hr d hdr
    rw [qu_cons_eq, if_neg h1, if_neg h2] at hr
    rcases hrec : queryUnescapeChars rest with _ | r0 <;> rw [hrec] at hr
    · exact Option.noConfusion hr
    · have hre : r = c :: r0 := (Option.some.inj hr).symm
      subst hre
      rcases List.mem_cons.mp hdr with hd | hd
      · subst hd
        exact hlt _ (by simp)
      · exact ih r0 (fun e he => hlt e (by simp [he])) hrec d hd

theorem cutAtChar_append (sep : Char) (a b : List Char) (h : sep ∉ a) :
    cutAtChar sep (a ++ sep :: b) = (a, b) := by
  induction a with
  | nil =>
    simp only [List.nil_append]
    rw [cutAtChar, if_pos rfl]
  | cons c rest ih =>
    have hc : c ≠ sep := fun hcc => h (hcc ▸ List.mem_cons_self c rest)
    have hrest : sep ∉ rest := fun hr => h (List.mem_cons_of_mem c hr)
    rw [List.cons_append]
    conv_lhs => rw [cutAtChar]
    rw [if_neg hc, ih hrest]

theorem cutAtChar_sub (sep : Char) (l : List Char) :
    ∀ c, (c ∈ (cutAtChar sep l).1 → c ∈ l) ∧ (c ∈ (cutAtChar sep l).2 → c ∈ l) := by
  induction l with
  | nil =>
    intro c
    exact ⟨fun h => by simp [cutAtChar] at h, fun h => by simp [cutAtChar] at h⟩
  | cons a rest ih =>
    intro c
    by_cases ha : a = sep
    · have he : cutAtChar sep (a :: rest) = ([], rest) := by
        rw [cutAtChar, if_pos ha]
      rw [he]
      exact ⟨fun h => by simp at h, fun h => List.mem_cons_of_mem a h⟩
    · have he : cutAtChar sep (a :: rest)
          = (a :: (cutAtChar sep rest).1, (cutAtChar sep rest).2) := by
        rw [cutAtChar, if_neg ha]
      rw [he]
      constructor
      · intro h
        rcases List.mem_cons.mp h with h1 | h1
        · exact h1 ▸ List.mem_cons_self a rest
        · exact List.mem_cons_of_mem a ((ih c).1 h1)
      · intro h
        exact List.mem_cons_of_mem a ((ih c).2 h)

theorem splitOnChar_sub (sep : Char) (l : List Char) :
    ∀ part ∈ splitOnChar sep l, ∀ c ∈ part, c ∈ l := by
  induction l with
  | nil =>
    intro part hp c hc
    simp [splitOnChar] at hp
    subst hp
    simp at hc
  | cons a rest ih =>
    intro part hp c hc
    rw [splitOnChar] at hp
    by_cases ha : a = sep
    · rw [if_pos ha] at hp
      rcases List.mem_cons.mp hp with h1 | h1
      · subst h1
        simp at hc
      · exact List.mem_cons_of_mem a (ih part h1 c hc)
    · rw [if_neg ha] at hp
      rcases hs : splitOnChar sep rest with _ | ⟨s, ss⟩
      · rw [hs] at hp
        have hp2 : part = [a] := List.mem_singleton.mp hp
        subst hp2
        have hc2 : c = a := List.mem_singleton.mp hc
        subst hc2
        exact List.mem_cons_self c rest
      · rw [hs] at hp
        rcases List.mem_cons.mp hp with h1 | h1
        · subst h1
          rcases List.mem_cons.mp hc with h2 | h2
          · subst h2
            exact List.mem_cons_self c rest
          · have hsmem : s ∈ splitOnChar sep rest := by
              rw [hs]
              exact List.mem_cons_self s ss
            exact List.mem_cons_of_mem a (ih s hsmem c h2)
        · have hmem : part ∈ splitOnChar sep rest := by
            rw [hs]
            exact List.mem_cons_of_mem s h1
          exact List.mem_cons_of_mem a (ih part hmem c hc)

theorem parsePair_encode (k v : String) (hk : ∀ c ∈ k.data, c.toNat < 256)
    (hv : ∀ c ∈ v.data, c.toNat < 256) :
    parsePair (escapeChars queryEscapeChar k.data ++
        '=' :: escapeChars queryEscapeChar v.data)
      = some (k, v) := by
  unfold parsePair
  rw [cutAtChar_append '=' _ _ (fun hmem => (escapeChars_not_special _ '=' hmem).2.2 rfl)]
  show (match queryUnescapeChars (escapeChars queryEscapeChar k.data),
      queryUnescapeChars (escapeChars queryEscapeChar v.data) with
    | some k2, some v2 => some (String.mk k2, String.mk v2)
    | _, _ => none) = some (k, v)
  rw [unescape_escape k.data hk, unescape_escape v.data hv]

theorem filterMap_decode_encode (ps : List (String × String))
    (h : ∀ kv ∈ ps, (∀ c ∈ (kv.1 : String).data, c.toNat < 256) ∧
      (∀ c ∈ (kv.2 : String).data, c.toNat < 256)) :
    List.filterMap (fun seg => if seg = [] then none
        else if seg.contains ';' then none else parsePair seg)
      (ps.map (fun kv => escapeChars queryEscapeChar kv.1.data ++
        '=' :: escapeChars queryEscapeChar kv.2.data)) = ps := by
  induction ps with
  | nil => rfl
  | cons p rest ih =>
    have hbp := h p (List.mem_cons_self p rest)
    have hseg_ne : ¬(escapeChars queryEscapeChar p.1.data ++
        '=' :: escapeChars queryEscapeChar p.2.data = []) := by
      simp
    have hsemi : ';' ∉ escapeChars queryEscapeChar p.1.data ++
        '=' :: escapeChars queryEscapeChar p.2.data := by
      intro hmem
      rcases List.mem_append.mp hmem with h1 | h1
      · exact (escapeChars_not_special _ ';' h1).2.1 rfl
      · rcases List.mem_cons.mp h1 with h2 | h2
        · exact absurd h2 (by decide)
        · exact (escapeChars_not_special _ ';' h2).2.1 rfl
    have hcontains : ((escapeChars queryEscapeChar p.1.data ++
        '=' :: escapeChars queryEscapeChar p.2.data).contains ';') = false := by
      simp [hsemi]
    have hfa : (if (escapeChars queryEscapeChar p.1.data ++
          '=' :: escapeChars queryEscapeChar p.2.data) = [] then none
        else if (escapeChars queryEscapeChar p.1.data ++
          '=' :: escapeChars queryEscapeChar p.2.data).contains ';' then none
        else parsePair (escapeChars queryEscapeChar p.1.data ++
          '=' :: escapeChars queryEscapeChar p.2.data)) = some p := by
      rw [if_neg hseg_ne, hcontains, if_neg (by simp),
        parsePair_encode p.1 p.2 hbp.1 hbp.2]
    simp only [List.map_cons, List.filterMap_cons, hfa]
    rw [ih (fun kv hkv => h kv (List.mem_cons_of_mem p hkv))]

theorem parseQuery_encode_sorted (ps : List (String × String))
    (h : ∀ kv ∈ ps, (∀ c ∈ (kv.1 : String).data, c.toNat < 256) ∧
      (∀ c ∈ (kv.2 : String).data, c.toNat < 256)) :
    parseQuery (String.mk (joinChar '&' (ps.map (fun kv =>
        escapeChars queryEscapeChar kv.1.data ++
          '=' :: escapeChars queryEscapeChar kv.2.data)))) = ps := by
  unfold parseQuery
  rw [data_mk]
  cases ps with
  | nil => rfl
  | cons p rest =>
    have hfree : ∀ part ∈ ((p :: rest).map (fun kv =>
        escapeChars queryEscapeChar kv.1.data ++
          '=' :: escapeChars queryEscapeChar kv.2.data)), '&' ∉ part := by
      intro part hpart
      rcases List.mem_map.mp hpart with ⟨kv, hkv, hpart2⟩
      subst hpart2
      intro hmem
      rcases List.mem_append.mp hmem with h1 | h1
      · exact (escapeChars_not_special _ '&' h1).1 rfl
      · rcases List.mem_cons.mp h1 with h2 | h2
        · exact absurd h2 (by decide)
        · exact (escapeChars_not_special _ '&' h2).1 rfl
    rw [splitOnChar_joinChar '&' _ (by simp) hfree]
    exact filterMap_decode_encode (p :: rest) h

theorem mem_insertPairSorted (p q : String × String) (l : List (String × String)) :
    q ∈ insertPairSorted p l ↔ q = p ∨ q ∈ l := by
  induction l with
  | nil => simp [insertPairSorted]
  | cons r rest ih =>
    rw [insertPairSorted]
    by_cases h : lexLeChars p.1.data r.1.data = true
    · rw [if_pos h]
      simp [List.mem_cons]
    · rw [if_neg h]
      simp only [List.mem_cons, ih]
      tauto

theorem mem_sortPairs (l : List (String × String)) (q : String × String) :
    q ∈ sortPairs l ↔ q ∈ l := by
  induction l with
  | nil => simp [sortPairs]
  | cons p rest ih =>
    rw [sortPairs, mem_insertPairSorted]
    simp [ih]

theorem parseQuery_bounds (s : String) (hs : ∀ c ∈ s.data, c.toNat < 256) :
    ∀ kv ∈ parseQuery s, (∀ c ∈ (kv.1 : String).data, c.toNat < 256) ∧
      (∀ c ∈ (kv.2 : String).data, c.toNat < 256) := by
  intro kv hkv
  unfold parseQuery at hkv
  rcases List.mem_filterMap.mp hkv with ⟨seg, hseg, hdec⟩
  have hsegsub : ∀ c ∈ seg, c ∈ s.data := splitOnChar_sub '&' s.data seg hseg
  split_ifs at hdec with hemp hsemi
  unfold parsePair at hdec
  rcases hk : queryUnescapeChars (cutAtChar '=' seg).1 with _ | kl
  · rw [hk] at hdec
    exact Option.noConfusion hdec
  rcases hv2 : queryUnescapeChars (cutAtChar '=' seg).2 with _ | vl
  · rw [hk, hv2] at hdec
    exact Option.noConfusion hdec
  rw [hk, hv2] at hdec
  have hkv2 : kv = (String.mk kl, String.mk vl) := (Option.some.inj hdec).symm
  subst hkv2
  constructor
  · intro c hc
    exact unescape_chars_lt (cutAtChar '=' seg).1 kl
      (fun e he => hs e (hsegsub e ((cutAtChar_sub '=' seg e).1 he))) hk c hc
  · intro c hc
    exact unescape_chars_lt (cutAtChar '=' seg).2 vl
      (fun e he => hs e (hsegsub e ((cutAtChar_sub '=' seg e).2 he))) hv2 c hc

/-- C7: for every service URL holding byte-string data, no pair of the
sanitized query carries the key ticket, and the service parameter of every
validation request URL is the sanitized service string. -/
theorem claim_C7_service_has_no_ticket (u : URL)
    (hbytes : ∀ c ∈ u.rawQuery.data, c.toNat < 256)
    (hticket : "ticket" ∈ (parseQuery u.rawQuery).map Prod.fst) :
    (∀ kv ∈ parseQuery (sanitisedURL u).rawQuery, kv.1 ≠ "ticket") ∧
    (∀ (casURL : URL) (t : String),
      (addQueryParams (urlParsePathRef casURL (pathJoin casURL.path "serviceValidate"))
          (sanitisedURLString u) t).rawQuery
        = "service=" ++ queryEscape (sanitisedURLString u) ++ "&ticket="
          ++ queryEscape t) ∧
    (∀ (casURL : URL) (t : String),
      (addQueryParams (urlParsePathRef casURL (pathJoin casURL.path "validate"))
          (sanitisedURLString u) t).rawQuery
        = "service=" ++ queryEscape (sanitisedURLString u) ++ "&ticket="
          ++ queryEscape t) ∧
    (∀ (casURL : URL) (t : String),
      (addQueryParams (urlParsePathRef casURL (pathJoin casURL.path "p3/serviceValidate"))
          (sanitisedURLString u) t).rawQuery
        = "service=" ++ queryEscape (sanitisedURLString u) ++ "&ticket="
          ++ queryEscape t) := by
  refine ⟨?_, ?_, ?_, ?_⟩
  · intro kv hkv
    have hfb : ∀ kv2 ∈ sortPairs ((parseQuery u.rawQuery).filter
        (fun kv3 => kv3.1 != "ticket")),
        (∀ c ∈ (kv2.1 : String).data, c.toNat < 256) ∧
          (∀ c ∈ (kv2.2 : String).data, c.toNat < 256) := by
      intro kv2 hkv2
      have h2 := (mem_sortPairs _ kv2).mp hkv2
      exact parseQuery_bounds u.rawQuery hbytes kv2 (List.mem_of_mem_filter h2)
    have henc : parseQuery (sanitisedURL u).rawQuery
        = sortPairs ((parseQuery u.rawQuery).filter (fun kv3 => kv3.1 != "ticket")) :=
      parseQuery_encode_sorted _ hfb
    rw [henc] at hkv
    have h3 := (mem_sortPairs _ kv).mp hkv
    have h4 := List.of_mem_filter h3
    simpa using h4
  · intro casURL t
    exact addQueryParams_empty_query _ rfl _ _
  · intro casURL t
    exact addQueryParams_empty_query _ rfl _ _
  · intro casURL t
    exact addQueryParams_empty_query _ rfl _ _

/-- C7 witness at a service URL carrying a ticket parameter. -/
theorem claim_C7_witness :
    (∀ c ∈ (exampleServiceURLWithTicket.rawQuery).data, c.toNat < 256) ∧
    "ticket" ∈ (parseQuery exampleServiceURLWithTicket.rawQuery).map Prod.fst ∧
    (∀ kv ∈ parseQuery (sanitisedURL exampleServiceURLWithTicket).rawQuery,
      kv.1 ≠ "ticket") ∧
    (addQueryParams (urlParsePathRef exampleCasURL
        (pathJoin exampleCasURL.path "serviceValidate"))
        (sanitisedURLString exampleServiceURLWithTicket) "ST-123").rawQuery
      = "service=" ++ queryEscape (sanitisedURLString exampleServiceURLWithTicket)
        ++ "&ticket=" ++ queryEscape "ST-123" := by
  have h := claim_C7_service_has_no_ticket exampleServiceURLWithTicket
    (by decide) (by decide)
  exact ⟨by decide, by decide, h.1, h.2.1 exampleCasURL "ST-123"⟩

theorem goSlice_eq_some (s : String) (lo hi : Int) (h0 : 0 ≤ lo) (h1 : lo ≤ hi)
    (h2 : hi ≤ (s.length : Int)) :
    goSlice s lo hi = some (String.mk ((s.data.take hi.toNat).drop lo.toNat)) := by
  unfold goSlice
  rw [if_pos ⟨h0, h1, h2⟩]

/-- C2: a 200 response with body of the form yes, newline, name, newline
yields an authenticated result with principal name and no error; the exact
body no, newline, newline yields an unauthenticated result with no error. -/
theorem claim_C2_v1_parse (name : String) (hnl : '\n' ∉ name.data) :
    validateTicketCas1Core 200 ("yes\n" ++ name ++ "\n")
        = some (.ok (some { User := name })) ∧
    validateTicketCas1Core 200 "no\n\n" = some (.ok none) := by
  constructor
  · have hdata : ("yes\n" ++ name ++ "\n").data
        = ('y' :: 'e' :: 's' :: '\n' :: name.data) ++ ['\n'] := by
      rw [String.data_append, String.data_append]
      rfl
    have hlen : ("yes\n" ++ name ++ "\n").length = name.length + 5 := by
      rw [String.length_append, String.length_append]
      have h1 : ("yes\n" : String).length = 4 := rfl
      have h2 : ("\n" : String).length = 1 := rfl
      omega
    have hne : ("yes\n" ++ name ++ "\n") ≠ "no\n\n" := by
      intro h
      have h2 := congrArg String.data h
      rw [hdata] at h2
      have h3 : "no\n\n".data = ['n', 'o', '\n', '\n'] := rfl
      rw [h3] at h2
      simp at h2
    unfold validateTicketCas1Core cas1ParseStage
    rw [if_neg (by simp), if_neg hne]
    have hToNat : ((("yes\n" ++ name ++ "\n").length : Int) - 1).toNat
        = name.length + 4 := by
      rw [hlen]
      omega
    rw [goSlice_eq_some, hToNat, hdata]
    · have h4 : ((4 : Int)).toNat = 4 := rfl
      rw [h4]
      have hlen2 : ('y' :: 'e' :: 's' :: '\n' :: name.data).length = name.length + 4 := by
        simp
      rw [← hlen2, List.take_left]
      rfl
    · omega
    · rw [hlen]
      omega
    · rw [hlen]
      omega
  · decide

/-- C2 witness at the concrete principal alice. -/
theorem claim_C2_witness :
    '\n' ∉ "alice".data ∧
    validateTicketCas1Core 200 ("yes\n" ++ "alice" ++ "\n")
        = some (.ok (some { User := "alice" })) :=
  ⟨by decide, (claim_C2_v1_parse "alice" (by decide)).1⟩

/-- C10: the v1 success path is not total: every 200 body shorter than five
characters other than the not-logged-in body makes the slice panic, and the
code never checks that the first line is the literal yes, as the second
conjunct shows on a body whose first line is nope. -/
theorem claim_C10_v1_not_total :
    (∀ body : String, body.length < 5 → body ≠ "no\n\n" →
        validateTicketCas1Core 200 body = none) ∧
    validateTicketCas1Core 200 "nope\nbob\n"
        = some (.ok (some { User := "\nbob" })) := by
  constructor
  · intro body h5 hno
    unfold validateTicketCas1Core cas1ParseStage
    rw [if_neg (by simp), if_neg hno]
    have hs : goSlice body 4 ((body.length : Int) - 1) = none := by
      unfold goSlice
      rw [if_neg]
      rintro ⟨-, h2, -⟩
      omega
    rw [hs]
  · decide

/-- C10 witness at the empty body. -/
theorem claim_C10_witness :
    ("" : String).length < 5 ∧ ("" : String) ≠ "no\n\n" ∧
    validateTicketCas1Core 200 "" = none :=
  ⟨by decide, by decide, claim_C10_v1_not_total.1 "" (by decide) (by decide)⟩

/-- C8 counterexample: a 200 response whose date carries the bracketed zone
name Europe/Paris reaches the parser with the suffix intact; only the
literal Asia/Shanghai is ever stripped. The echo parser exposes the exact
body the parser receives. -/
theorem claim_C8_counterexample :
    validateTicketCas3Core parseEcho 200 "2020-01-02T03:04:05+08:00[Europe/Paris]"
        = .error "2020-01-02T03:04:05+08:00[Europe/Paris]" ∧
    cas3Sanitize "2020-01-02T03:04:05+08:00[Europe/Paris]"
        = "2020-01-02T03:04:05+08:00[Europe/Paris]" := by
  exact ⟨rfl, rfl⟩

/-- C8 as amended: on a 200 body other than the not-logged-in body the v3
path parses the sanitized body, where sanitization removes exactly the
first occurrence of the literal bracketed zone name Asia/Shanghai and
nothing else; and, per the spec contract for the parser that is not among
the given source files, a date value that fails to parse yields the zero
value rather than a parse fault. -/
theorem claim_C8_amended_sanitize :
    (∀ (parse : String → Except String (Option AuthenticationResponse)) (body : String),
        body ≠ "no\n\n" → cas3ParseStage parse body = parse (cas3Sanitize body)) ∧
    (∀ pre post : List Char,
        (∀ k, k < pre.length →
          ("[Asia/Shanghai]".data.isPrefixOf
            ((pre ++ ("[Asia/Shanghai]".data ++ post)).drop k)) = false) →
        cas3Sanitize (String.mk (pre ++ ("[Asia/Shanghai]".data ++ post)))
            = String.mk (pre ++ post)) ∧
    (∀ (extractUser : String → Except String String)
        (extractDate : String → Option String)
        (parseTime : String → Option Nat) (body u : String),
        extractUser body = .ok u →
        ∃ t, specParseWithDate extractUser extractDate parseTime body = .ok (u, t) ∧
          (t = 0 ∨ ∃ d, extractDate body = some d ∧ parseTime d = some t)) := by
  refine ⟨?_, ?_, ?_⟩
  · intro parse body hne
    unfold cas3ParseStage
    rw [if_neg hne]
  · intro pre post hpre
    unfold cas3Sanitize stringsReplace1
    show String.mk (replaceFirstChars "[Asia/Shanghai]".data "".data
      (pre ++ ("[Asia/Shanghai]".data ++ post))) = String.mk (pre ++ post)
    rw [replaceFirstChars_first_occurrence _ _ _ _ hpre]
    rfl
  · intro eu ed pt body u hu
    unfold specParseWithDate
    simp only [hu]
    rcases hd : ed body with _ | d
    · exact ⟨0, rfl, Or.inl rfl⟩
    · refine ⟨(pt d).getD 0, rfl, ?_⟩
      rcases hpt : pt d with _ | t
      · exact Or.inl rfl
      · exact Or.inr ⟨d, rfl, hpt⟩

/-- C8 witness at concrete bodies, one carrying the Asia/Shanghai suffix. -/
theorem claim_C8_witness :
    "payload" ≠ "no\n\n" ∧
    cas3ParseStage parseAlwaysOk "payload" = parseAlwaysOk (cas3Sanitize "payload") ∧
    (∀ k, k < ("<d>".data).length →
        ("[Asia/Shanghai]".data.isPrefixOf
          (("<d>".data ++ ("[Asia/Shanghai]".data ++ "</d>".data)).drop k)) = false) ∧
    cas3Sanitize (String.mk ("<d>".data ++ ("[Asia/Shanghai]".data ++ "</d>".data)))
        = String.mk ("<d>".data ++ "</d>".data) ∧
    (∃ t, specParseWithDate (fun _ => .ok "alice") (fun _ => some "baddate")
          (fun _ => none) "body" = .ok ("alice", t) ∧
        (t = 0 ∨ ∃ d, (fun _ => some "baddate") "body" = some d ∧
          (fun _ => (none : Option Nat)) d = some t)) := by
  refine ⟨by decide, claim_C8_amended_sanitize.1 parseAlwaysOk "payload" (by decide),
    by decide, claim_C8_amended_sanitize.2.1 "<d>".data "</d>".data (by decide),
    claim_C8_amended_sanitize.2.2 (fun _ => .ok "alice") (fun _ => some "baddate")
      (fun _ => none) "body" "alice" rfl⟩

end Cas
